import Mathlib

/-!
Verification of the clinical_nlp_explorer entity-aggregation core.

This file gives a shallow embedding, in Lean 4, of the core logic of the
repository:

* `scripts/ner.py` — the normalizer `_norm_entity`, the label mapper
  `_map_label_group`, and the dedup step `_dedupe_entities` together with the
  post-processing done at the end of `run_ner_on_trials`;
* `scripts/annotate.py` — the span resolution inside `annotate_text_html`
  (offset filtering, sort by start ascending / end descending, truncation at
  `max_entities`, greedy non-overlap scan, and the cursor walk that emits the
  alternating plain/entity runs), plus the HTML assembly itself;
* `scripts/entity_explorer.py` — `build_cooccurrence_long` and
  `per_trial_entity_table`.

Python strings are embedded as lists of Unicode code points (`List Nat`),
restricted in the character-class predicates to the ASCII behaviour of the
Python regexes involved (`\s`, `\w`, `str.lower`, `str.upper`).  DataFrames
are embedded as lists of records; pandas `drop_duplicates` keeps the first
occurrence, `groupby` enumerates keys in ascending order, `sort_values` is
modelled with a deterministic (stable) insertion sort.  All embedded
functions are executable, so concrete runs are settled by `decide`.
-/

set_option maxRecDepth 40000

/-- Code points of a string literal (Python `str` as a list of code points). -/
def pyStr (s : String) : List Nat := s.data.map Char.toNat

/-! ### Character model (ASCII fragment of the Python semantics) -/

/-- Python `\s` on the ASCII range: space, tab, newline, vertical tab,
form feed, carriage return. -/
def pyIsSpace (c : Nat) : Bool :=
  c == 32 || c == 9 || c == 10 || c == 11 || c == 12 || c == 13

/-- Python `\w` on the ASCII range: letters, digits, underscore. -/
def pyIsWord (c : Nat) : Bool :=
  (48 ≤ c && c ≤ 57) || (65 ≤ c && c ≤ 90) || (97 ≤ c && c ≤ 122) || c == 95

/-- `str.lower` on one code point (ASCII range). -/
def toLowerPy (c : Nat) : Nat := if 65 ≤ c ∧ c ≤ 90 then c + 32 else c

/-- `str.upper` on one code point (ASCII range). -/
def toUpperPy (c : Nat) : Nat := if 97 ≤ c ∧ c ≤ 122 then c - 32 else c

/-- `str.upper` on a whole string. -/
def upperPy (l : List Nat) : List Nat := l.map toUpperPy

/-! ### Normalizer: `_norm_entity` from `scripts/ner.py`

```python
def _norm_entity(s: str) -> str:
    s = (s or "").strip().lower()
    s = re.sub(r"\s+", " ", s)
    s = s.replace("–", "-").replace("—", "-")
    s = re.sub(r"^[^\w]+|[^\w]+$", "", s)
    return s
```
-/

/-- `str.strip()`: drop whitespace from both ends. -/
def stripWs (l : List Nat) : List Nat :=
  ((l.dropWhile pyIsSpace).reverse.dropWhile pyIsSpace).reverse

/-- `re.sub(r"\s+", " ", s)`: collapse each maximal whitespace run to a single
space.  The boolean state records whether the previous character was part of a
whitespace run (whose single `' '` has already been emitted). -/
def collapseWs : Bool → List Nat → List Nat
  | _, [] => []
  | b, c :: rest =>
    if pyIsSpace c then
      if b then collapseWs true rest else 32 :: collapseWs true rest
    else c :: collapseWs false rest

/-- `s.replace("–", "-").replace("—", "-")`: en dash (U+2013) and em dash
(U+2014) become the ASCII hyphen. -/
def dashFix (l : List Nat) : List Nat :=
  l.map (fun c => if c = 8211 ∨ c = 8212 then 45 else c)

/-- `re.sub(r"^[^\w]+|[^\w]+$", "", s)`: drop the maximal non-word runs at
both ends. -/
def stripNonWord (l : List Nat) : List Nat :=
  ((l.dropWhile (fun c => !pyIsWord c)).reverse.dropWhile (fun c => !pyIsWord c)).reverse

/-- `_norm_entity` (`scripts/ner.py`, lines 11–16). -/
def _norm_entity (l : List Nat) : List Nat :=
  stripNonWord (dashFix (collapseWs false (List.map toLowerPy (stripWs l))))

/-- Adjacent characters are not both whitespace — the shape invariant of
collapsed whitespace, threaded through the normalizer stages. -/
def noAdjSpace (a b : Nat) : Prop := ¬(pyIsSpace a = true ∧ pyIsSpace b = true)

/-! ### Mention table rows and the Mention Aggregator post-processing
(`scripts/ner.py`) -/

/-- One row of the mention table, as built in `_doc_entities_to_records`
(`scripts/ner.py`, lines 35–55).  The constant `score: None` column is
omitted.  Offsets are `Int` as in the source (plain Python ints); string
cells are code-point lists. -/
structure NMention where
  nct_id : List Nat
  entity_text : List Nat
  entity_norm : List Nat
  label_raw : List Nat
  label_group : List Nat
  start : Int
  endPos : Int
  text_hash : List Nat
deriving DecidableEq

/-- The dedup identity key: `["nct_id", "start", "end", "label_group",
"entity_norm"]` (`scripts/ner.py`, line 61). -/
def mentionKey (m : NMention) : List Nat × Int × Int × List Nat × List Nat :=
  (m.nct_id, m.start, m.endPos, m.label_group, m.entity_norm)

/-- `DataFrame.drop_duplicates(subset=key_cols)` keeps the first row for each
key; `seen` is the set of keys already kept. -/
def dedupeGo (seen : List (List Nat × Int × Int × List Nat × List Nat)) :
    List NMention → List NMention
  | [] => []
  | m :: rest =>
    if mentionKey m ∈ seen then dedupeGo seen rest
    else m :: dedupeGo (mentionKey m :: seen) rest

/-- `_dedupe_entities` (`scripts/ner.py`, lines 58–62). -/
def _dedupe_entities (l : List NMention) : List NMention := dedupeGo [] l

/-- The post-processing at the end of `run_ner_on_trials` (`scripts/ner.py`,
lines 145–149), applied to the raw records collected from the taggers (the
spaCy models themselves are the external black box): keep rows whose
`entity_norm` has length at least 2, then dedupe. -/
def aggregateRecords (records : List NMention) : List NMention :=
  _dedupe_entities (records.filter (fun m => 2 ≤ m.entity_norm.length))

/-! ### Span Resolver (`scripts/annotate.py`, `annotate_text_html`) -/

/-- One row of the `entities_for_doc` frame as consumed by
`annotate_text_html`: the `start`/`end` cells may be missing (`NaN`), the
label is a string (code points). -/
structure PyMention where
  start : Option Int
  endPos : Option Int
  label_group : List Nat
deriving DecidableEq

/-- `df.dropna(subset=["start", "end"])` followed by
`df[(df["start"] >= 0) & (df["end"] > df["start"]) & (df["end"] <= len(text))]`
(`scripts/annotate.py`, lines 62–66).  Each surviving row becomes a candidate
triple `(start, end, label_group)`. -/
def filterSpans (textLen : Nat) (l : List PyMention) : List (Int × Int × List Nat) :=
  (l.filterMap (fun m =>
    match m.start, m.endPos with
    | some s, some e => some (s, e, m.label_group)
    | _, _ => none)).filter
    (fun c => decide (0 ≤ c.1 ∧ c.1 < c.2.1 ∧ c.2.1 ≤ (textLen : Int)))

/-- The sort key of `df.sort_values(["start", "end"], ascending=[True, False])`:
start ascending, ties broken by end descending. -/
def leSpan (a b : Int × Int × List Nat) : Prop :=
  a.1 < b.1 ∨ (a.1 = b.1 ∧ b.2.1 ≤ a.2.1)

instance : DecidableRel leSpan := fun a b => by unfold leSpan; infer_instance

instance : IsTotal (Int × Int × List Nat) leSpan :=
  ⟨fun a b => by unfold leSpan; omega⟩

instance : IsTrans (Int × Int × List Nat) leSpan :=
  ⟨fun a b c hab hbc => by unfold leSpan at *; omega⟩

/-- The sort of `annotate_text_html` (line 70), as a deterministic (stable)
sort realizing the pandas key. -/
def sortSpans (l : List (Int × Int × List Nat)) : List (Int × Int × List Nat) :=
  l.insertionSort leSpan

/-- The greedy overlap scan (`scripts/annotate.py`, lines 72–82): starting
from `last_end = -1`, a candidate is skipped iff its start is strictly below
`last_end`; an accepted candidate's label is uppercased and `last_end` moves
to its end. -/
def greedySpans : Int → List (Int × Int × List Nat) → List (Int × Int × List Nat)
  | _, [] => []
  | lastEnd, c :: rest =>
    if c.1 < lastEnd then greedySpans lastEnd rest
    else (c.1, c.2.1, upperPy c.2.2) :: greedySpans c.2.1 rest

/-- Python slice `text[a:b]` for integer bounds. -/
def sliceN (t : List Nat) (a b : Int) : List Nat := (t.take b.toNat).drop a.toNat

/-- One output run of the resolver: either a plain stretch of the document
text or an accepted entity span `[s, e)` with its label. -/
inductive Seg where
  | plain (txt : List Nat)
  | entity (s e : Int) (label : List Nat) (txt : List Nat)
deriving DecidableEq

/-- The cursor walk of `annotate_text_html` (lines 84–111) at span level: the
text before each accepted span is a plain run, each accepted span an entity
run, and the tail after the last accepted span a final plain run. -/
def emitSegs (text : List Nat) : Int → List (Int × Int × List Nat) → List Seg
  | cursor, [] =>
    if cursor < (text.length : Int) then [Seg.plain (sliceN text cursor text.length)] else []
  | cursor, sp :: rest =>
    (if cursor < sp.1 then [Seg.plain (sliceN text cursor sp.1)] else []) ++
      Seg.entity sp.1 sp.2.1 sp.2.2 (sliceN text sp.1 sp.2.1) :: emitSegs text sp.2.1 rest

/-- The Span Resolver at segment level: the run structure computed by
`annotate_text_html` (`scripts/annotate.py`, lines 49–113) before the runs
are wrapped in HTML.  `none` embeds `entities_for_doc is None`. -/
def resolveSegments (text : List Nat) (ments : Option (List PyMention)) (cap : Nat) :
    List Seg :=
  if text = [] then []
  else
    match ments with
    | none => [Seg.plain text]
    | some l =>
      if l = [] then [Seg.plain text]
      else
        let f := filterSpans text.length l
        if f = [] then [Seg.plain text]
        else emitSegs text 0 (greedySpans (-1) ((sortSpans f).take cap))

/-- Concatenation of the run texts, in order. -/
def concatSegs (l : List Seg) : List Nat :=
  l.flatMap (fun s => match s with | .plain t => t | .entity _ _ _ t => t)

/-- The entity runs' offsets, in output order. -/
def entitySpans (l : List Seg) : List (Int × Int) :=
  l.filterMap (fun s => match s with | .entity a b _ _ => some (a, b) | _ => none)

/-- Whether a run is an entity run. -/
def isEntitySeg : Seg → Bool
  | .entity _ _ _ _ => true
  | .plain _ => false

/-! ### HTML assembly of `annotate_text_html` (`scripts/annotate.py`)

The colour lookup `_colors_for_label_group` hashes unknown labels with MD5
(`_stable_bucket`); it is passed as an opaque parameter `colors` here, since
no inspected property depends on the colour values. -/

/-- The apostrophe code point, used to spell the quoted HTML attributes. -/
def apos : List Nat := [39]

/-- `html.escape` on one code point (`&`, `<`, `>`, `"`, the apostrophe). -/
def htmlEscapeChar (c : Nat) : List Nat :=
  if c = 38 then pyStr "&amp;"
  else if c = 60 then pyStr "&lt;"
  else if c = 62 then pyStr "&gt;"
  else if c = 34 then pyStr "&quot;"
  else if c = 39 then pyStr "&#x27;"
  else [c]

/-- `html.escape(s)` (with the default `quote=True`). -/
def htmlEscape (t : List Nat) : List Nat := t.flatMap htmlEscapeChar

/-- The plain rendering
`f"<div style='white-space: pre-wrap;'>{html.escape(text)}</div>"`
(`scripts/annotate.py`, lines 60 and 68). -/
def plainDiv (t : List Nat) : List Nat :=
  pyStr "<div style=" ++ apos ++ pyStr "white-space: pre-wrap;" ++ apos ++ pyStr ">"
    ++ htmlEscape t ++ pyStr "</div>"

/-- The `tag_html` pill (`scripts/annotate.py`, lines 94–101). -/
def tagHtml (border label : List Nat) : List Nat :=
  pyStr "<span style=" ++ apos
    ++ pyStr "font-size: 0.72em; font-weight: 750; border: 1px solid " ++ border
    ++ pyStr "; padding: 1px 6px; border-radius: 999px; margin-left: 6px; color: "
    ++ border ++ pyStr "; background: white;" ++ apos ++ pyStr ">"
    ++ htmlEscape label ++ pyStr "</span>"

/-- The highlighted-entity `<span>` (`scripts/annotate.py`, lines 103–107);
`TEXT_COLOR = "#111111"`. -/
def entitySpanHtml (colors : List Nat → List Nat × List Nat) (showTag : Bool)
    (label chunkEsc : List Nat) : List Nat :=
  pyStr "<span style=" ++ apos ++ pyStr "background:" ++ (colors label).1
    ++ pyStr "; border-bottom:2px solid " ++ (colors label).2
    ++ pyStr "; color:#111111; padding: 0px 2px; border-radius: 4px;" ++ apos ++ pyStr ">"
    ++ chunkEsc ++ (if showTag then tagHtml (colors label).2 label else []) ++ pyStr "</span>"

/-- HTML for one output run: plain runs are escaped, entity runs become the
highlighted `<span>` built from the escaped chunk. -/
def renderSeg (colors : List Nat → List Nat × List Nat) (showTag : Bool) : Seg → List Nat
  | .plain t => htmlEscape t
  | .entity _ _ lab t => entitySpanHtml colors showTag lab (htmlEscape t)

/-- `annotate_text_html` (`scripts/annotate.py`, lines 49–113), producing the
final HTML string (as code points).  Matches the source's branch structure:
empty text, missing/empty entity frame, empty frame after offset filtering,
and the rendered run sequence otherwise. -/
def annotate_text_html (text : List Nat) (ments : Option (List PyMention))
    (showTag : Bool) (cap : Nat) (colors : List Nat → List Nat × List Nat) : List Nat :=
  if text = [] then pyStr "<div></div>"
  else
    match ments with
    | none => plainDiv text
    | some l =>
      if l = [] then plainDiv text
      else
        let f := filterSpans text.length l
        if f = [] then plainDiv text
        else
          pyStr "<div style=" ++ apos ++ pyStr "white-space: pre-wrap; line-height: 1.55;"
            ++ apos ++ pyStr ">"
            ++ (emitSegs text 0 (greedySpans (-1) ((sortSpans f).take cap))).flatMap
                (renderSeg colors showTag)
            ++ pyStr "</div>"

/-! ### List helpers shared by the entity-explorer embedding -/

/-- First-occurrence deduplication (`drop_duplicates` / `Series.unique`):
`seen` is the list of values already kept. -/
def dedupFGo {α : Type} [DecidableEq α] (seen : List α) : List α → List α
  | [] => []
  | a :: rest => if a ∈ seen then dedupFGo seen rest else a :: dedupFGo (a :: seen) rest

/-- First-occurrence deduplication of a list. -/
def dedupF {α : Type} [DecidableEq α] (l : List α) : List α := dedupFGo [] l

/-- Strict lexicographic order on code-point strings. -/
def lexNatLt : List Nat → List Nat → Bool
  | [], [] => false
  | [], _ :: _ => true
  | _ :: _, [] => false
  | a :: as, b :: bs => if a < b then true else if b < a then false else lexNatLt as bs

/-- Non-strict lexicographic order on code-point strings. -/
def lexNatLe (a b : List Nat) : Prop := lexNatLt a b = true ∨ a = b

instance : DecidableRel lexNatLe := fun a b => by unfold lexNatLe; infer_instance

/-! ### Co-occurrence Builder (`scripts/entity_explorer.py`,
`build_cooccurrence_long`) -/

/-- `df[df["label_group"].isin({left_group, right_group})]`
(`scripts/entity_explorer.py`, line 40). -/
def coFiltered (tbl : List NMention) (lg rg : List Nat) : List NMention :=
  tbl.filter (fun r => decide (r.label_group = lg ∨ r.label_group = rg))

/-- Descending order on (entity, distinct-trial count) pairs, the key of
`.sort_values(ascending=False)` in `_top_entities`. -/
def leCountDesc (a b : List Nat × Nat) : Prop := b.2 ≤ a.2

instance : DecidableRel leCountDesc := fun a b => by unfold leCountDesc; infer_instance

/-- `_top_entities` (`scripts/entity_explorer.py`, lines 44–55): distinct
`(nct_id, entity_norm)` pairs of the group, the number of distinct trials per
norm (`groupby` enumerates the norms in ascending order), sorted by that
count descending, truncated to `n`. -/
def _top_entities (df : List NMention) (group : List Nat) (n : Nat) : List (List Nat) :=
  let pairs := dedupF ((df.filter (fun r => decide (r.label_group = group))).map
    (fun r => (r.nct_id, r.entity_norm)))
  let norms := (dedupF (pairs.map (·.2))).insertionSort lexNatLe
  let counted := norms.map (fun v =>
    (v, (dedupF ((pairs.filter (fun p => decide (p.2 = v))).map (·.1))).length))
  ((counted.insertionSort leCountDesc).take n).map (·.1)

/-- `set(left_top + right_top)` as the membership list used by the
restriction on line 63. -/
def coTopUnion (tbl : List NMention) (lg rg : List Nat) (tl tr : Nat) : List (List Nat) :=
  _top_entities (coFiltered tbl lg rg) lg tl ++ _top_entities (coFiltered tbl lg rg) rg tr

/-- `d = df[df["entity_norm"].isin(set(left_top + right_top))]`
(`scripts/entity_explorer.py`, line 63). -/
def coRestricted (tbl : List NMention) (lg rg : List Nat) (tl tr : Nat) : List NMention :=
  (coFiltered tbl lg rg).filter (fun r => decide (r.entity_norm ∈ coTopUnion tbl lg rg tl tr))

/-- The distinct trial ids of `d.groupby("nct_id")`, in ascending order. -/
def coTrialIds (tbl : List NMention) (lg rg : List Nat) (tl tr : Nat) : List (List Nat) :=
  (dedupF ((coRestricted tbl lg rg tl tr).map (·.nct_id))).insertionSort lexNatLe

/-- The distinct `entity_norm` values of one trial's rows restricted to one
label group (`g.loc[g["label_group"] == group, "entity_norm"].unique()`,
lines 69–70). -/
def coGroupSet (d : List NMention) (group t : List Nat) : List (List Nat) :=
  dedupF ((d.filter (fun r => decide (r.nct_id = t ∧ r.label_group = group))).map
    (·.entity_norm))

/-- The per-trial counting events (`scripts/entity_explorer.py`, lines
67–79): every trial whose left set and right set are both non-empty
contributes the cross product of the two sets. -/
def coRows (tbl : List NMention) (lg rg : List Nat) (tl tr : Nat) :
    List (List Nat × List Nat) :=
  (coTrialIds tbl lg rg tl tr).flatMap (fun t =>
    if (coGroupSet (coRestricted tbl lg rg tl tr) lg t).isEmpty
        || (coGroupSet (coRestricted tbl lg rg tl tr) rg t).isEmpty then []
    else (coGroupSet (coRestricted tbl lg rg tl tr) lg t).flatMap (fun a =>
      (coGroupSet (coRestricted tbl lg rg tl tr) rg t).map (fun b => (a, b))))

/-- Descending order on counted pairs, the key of the final
`.sort_values("n_trials", ascending=False)`. -/
def leTripleDesc (a b : List Nat × List Nat × Nat) : Prop := b.2.2 ≤ a.2.2

instance : DecidableRel leTripleDesc := fun a b => by unfold leTripleDesc; infer_instance

/-- `pd.DataFrame(rows).value_counts()` then sort by count descending
(lines 84–90): one output triple per distinct pair, holding the number of
counting events. -/
def value_counts_pairs (rows : List (List Nat × List Nat)) :
    List (List Nat × List Nat × Nat) :=
  ((dedupF rows).map (fun p => (p.1, p.2, rows.count p))).insertionSort leTripleDesc

/-- `build_cooccurrence_long` (`scripts/entity_explorer.py`, lines 27–91). -/
def build_cooccurrence_long (tbl : List NMention) (lg rg : List Nat) (tl tr : Nat) :
    List (List Nat × List Nat × Nat) :=
  if tbl.isEmpty then []
  else if (coFiltered tbl lg rg).isEmpty then []
  else if (_top_entities (coFiltered tbl lg rg) lg tl).isEmpty
      || (_top_entities (coFiltered tbl lg rg) rg tr).isEmpty then []
  else if (coRestricted tbl lg rg tl tr).isEmpty then []
  else if (coRows tbl lg rg tl tr).isEmpty then []
  else value_counts_pairs (coRows tbl lg rg tl tr)

/-- The `n_trials` value the output table reports for a pair (`0` when the
pair has no row). -/
def pairCount (out : List (List Nat × List Nat × Nat)) (l r : List Nat) : Nat :=
  match out.find? (fun x => decide (x.1 = l ∧ x.2.1 = r)) with
  | some x => x.2.2
  | none => 0

/-- Modelled from the spec: "`trial_count` is the number of distinct
`document_id`s in which both `left_entity` (from `left_category`) and
`right_entity` (from `right_category`) appear at least once."  Stated over
the raw mention table. -/
def specTrialCount (tbl : List NMention) (lg rg l r : List Nat) : Nat :=
  (dedupF (tbl.map (·.nct_id))).countP (fun t =>
    tbl.any (fun m => decide (m.nct_id = t ∧ m.label_group = lg ∧ m.entity_norm = l)) &&
    tbl.any (fun m => decide (m.nct_id = t ∧ m.label_group = rg ∧ m.entity_norm = r)))

/-! ### Per-Trial Table Builder (`scripts/entity_explorer.py`,
`per_trial_entity_table`) -/

/-- `df = entities_df[entities_df["nct_id"].astype(str) == str(nct_id)]`
(line 103). -/
def pt_filtered (tbl : List NMention) (nid : List Nat) : List NMention :=
  tbl.filter (fun r => decide (r.nct_id = nid))

/-- One admissible resolution of `s.value_counts().index[0]`: the maximal-
count value, ties resolved in favour of the value seen first.  This is NOT
the code's guaranteed behaviour: pandas `value_counts` emits tied values in
hash-table order and sorts them with an unstable sort, so its tie order is
unspecified (for strings it can differ between processes).  The embedding
therefore treats the representative choice as an opaque parameter (see
`RepOk` and `per_trial_entity_table_rep` below); `mostFreqFirst` only serves
as one concrete admissible choice. -/
def mostFreqFirst (l : List (List Nat)) : List Nat :=
  match dedupF l with
  | [] => []
  | x :: xs => xs.foldl (fun best y => if l.count best < l.count y then y else best) x

/-- What `s.value_counts().index[0]` does guarantee on a non-empty series:
because `value_counts` sorts by count descending, `index[0]` is one of the
series' values and its count is maximal.  Which tied value is returned is
unspecified, so the representative choice is any function satisfying this
predicate. -/
def RepOk (rep : List (List Nat) → List Nat) : Prop :=
  ∀ l : List (List Nat), l ≠ [] → rep l ∈ l ∧ ∀ y ∈ l, l.count y ≤ l.count (rep l)

/-- Ascending lexicographic order on `(label_group, entity_norm)` keys, the
enumeration order of `df.groupby(["label_group", "entity_norm"])`. -/
def leKeyAsc (a b : List Nat × List Nat) : Prop :=
  lexNatLt a.1 b.1 = true ∨ (a.1 = b.1 ∧ lexNatLe a.2 b.2)

instance : DecidableRel leKeyAsc := fun a b => by unfold leKeyAsc; infer_instance

/-- The distinct group keys of the filtered frame, in ascending order. -/
def pt_keys (d : List NMention) : List (List Nat × List Nat) :=
  (dedupF (d.map (fun r => (r.label_group, r.entity_norm)))).insertionSort leKeyAsc

/-- One output row of `per_trial_entity_table`. -/
structure PTRow where
  label_group : List Nat
  entity_text : List Nat
  entity_norm : List Nat
  mentions : Nat
deriving DecidableEq

/-- The final `sort_values(["label_group", "mentions"],
ascending=[True, False])` key: category ascending, mention count
descending. -/
def ptLe (a b : PTRow) : Prop :=
  lexNatLt a.label_group b.label_group = true ∨
    (a.label_group = b.label_group ∧ b.mentions ≤ a.mentions)

instance : DecidableRel ptLe := fun a b => by unfold ptLe; infer_instance

/-- The rows of one group key: all filtered rows with that
`(label_group, entity_norm)`. -/
def ptGroup (d : List NMention) (k : List Nat × List Nat) : List NMention :=
  d.filter (fun r => decide (r.label_group = k.1 ∧ r.entity_norm = k.2))

/-- `per_trial_entity_table` (`scripts/entity_explorer.py`, lines 94–121):
group the document's rows by `(label_group, entity_norm)`, report the group
size and the representative surface form, and sort by category ascending then
mention count descending.  The representative of a group is
`s.value_counts().index[0]` on the group's surface forms; since pandas does
not specify which of several equally frequent values that is, the choice is
the opaque parameter `rep` (any `RepOk` function). -/
def per_trial_entity_table_rep (rep : List (List Nat) → List Nat)
    (tbl : List NMention) (nid : List Nat) : List PTRow :=
  if tbl.isEmpty then []
  else
    let d := pt_filtered tbl nid
    if d.isEmpty then []
    else
      ((pt_keys d).map (fun k =>
        { label_group := k.1
          entity_text := rep ((ptGroup d k).map (·.entity_text))
          entity_norm := k.2
          mentions := (ptGroup d k).length : PTRow })).insertionSort ptLe

/-- `per_trial_entity_table` at one concrete admissible representative
choice (used where the choice is irrelevant, e.g. for the empty-input
behaviour). -/
def per_trial_entity_table (tbl : List NMention) (nid : List Nat) : List PTRow :=
  per_trial_entity_table_rep mostFreqFirst tbl nid

/-- The surface forms of one `(label_group, entity_norm)` group of one
document's mentions, in original order — the series whose
`value_counts().index[0]` is the reported representative. -/
def ptSurfaces (tbl : List NMention) (nid : List Nat) (k : List Nat × List Nat) :
    List (List Nat) :=
  (ptGroup (pt_filtered tbl nid) k).map (fun r => r.entity_text)

/-! ### Invariants and concrete inputs used in the statements -/

/-- Well-formedness of an accepted span list relative to a cursor: each span
starts at or after the cursor, is non-degenerate, ends within the document,
and the rest is well-formed from its end. -/
def okFrom (n : Nat) : Int → List (Int × Int × List Nat) → Prop
  | _, [] => True
  | c, sp :: rest => c ≤ sp.1 ∧ sp.1 < sp.2.1 ∧ sp.2.1 ≤ (n : Int) ∧ okFrom n sp.2.1 rest

/-- A mention-table row with the given document id, surface form, normalized
form, category and offsets (provenance fields fixed), used for the concrete
instances below. -/
def mkRow (nid et en lg : String) (s e : Int) : NMention :=
  { nct_id := pyStr nid, entity_text := pyStr et, entity_norm := pyStr en,
    label_raw := pyStr "TAG:" ++ pyStr lg, label_group := pyStr lg,
    start := s, endPos := e, text_hash := pyStr "h" }

/-- The two overlap-policy mentions `[0, 5, "DISEASE")` and `[3, 8, "DRUG")`. -/
def exOverlapMents : List PyMention :=
  [{ start := some 0, endPos := some 5, label_group := pyStr "DISEASE" },
   { start := some 3, endPos := some 8, label_group := pyStr "DRUG" }]

/-- An eight-character document for the overlap-policy instance. -/
def exOverlapDoc : List Nat := pyStr "abcdefgh"

/-- A 500-character document. -/
def exCapDoc : List Nat := List.replicate 500 97

/-- 500 non-overlapping single-character mentions `[i, i+1)`. -/
def exCapMents : List PyMention :=
  (List.range 500).map (fun i =>
    { start := some (i : Int), endPos := some ((i : Int) + 1),
      label_group := pyStr "DISEASE" })

/-- Two structurally identical detections of the same mention differing only
in the tagger that produced them (`label_raw`). -/
def exDupA : NMention := mkRow "NCT1" "Tumor" "tumor" "DISEASE" 0 5

/-- The second tagger's copy of `exDupA`. -/
def exDupB : NMention := { exDupA with label_raw := pyStr "JNLPBA:DISEASE" }

/-- The three-trial co-occurrence example: trial A has DISEASE x and DRUG y,
trial B has DISEASE x and DRUG y, z, trial C has DISEASE x only. -/
def exCoTbl : List NMention :=
  [mkRow "A" "x" "x" "DISEASE" 0 1, mkRow "A" "y" "y" "DRUG" 2 3,
   mkRow "B" "x" "x" "DISEASE" 0 1, mkRow "B" "y" "y" "DRUG" 2 3,
   mkRow "B" "z" "z" "DRUG" 4 5,
   mkRow "C" "x" "x" "DISEASE" 0 1]

/-- Three mentions of the same normalized entity with surface forms
`"Tumor"`, `"tumor"`, `"TUMOR"` in one document. -/
def exTumorTbl : List NMention :=
  [mkRow "T1" "Tumor" "tumor" "DISEASE" 0 5,
   mkRow "T1" "tumor" "tumor" "DISEASE" 10 15,
   mkRow "T1" "TUMOR" "tumor" "DISEASE" 20 25]

/-- A one-row mention table used to instantiate the error-handling claims. -/
def exSingleTbl : List NMention := [mkRow "A" "x" "x" "DISEASE" 0 1]

/-- A fixed colour map standing in for `_colors_for_label_group` in concrete
instances. -/
def exColors : List Nat → List Nat × List Nat :=
  fun _ => (pyStr "#ffe3e3", pyStr "#d62728")

/-! ### Lemmas: first-occurrence deduplication -/

lemma mem_dedupFGo {α : Type} [DecidableEq α] :
    ∀ (l seen : List α) (a : α), a ∈ dedupFGo seen l ↔ a ∈ l ∧ a ∉ seen := by
  intro l
  induction l with
  | nil => intro seen a; simp [dedupFGo]
  | cons b rest ih =>
    intro seen a
    by_cases hb : b ∈ seen
    · simp only [dedupFGo, if_pos hb, ih, List.mem_cons]
      constructor
      · rintro ⟨h1, h2⟩; exact ⟨Or.inr h1, h2⟩
      · rintro ⟨h1 | h1, h2⟩
        · exact absurd (h1 ▸ hb) h2
        · exact ⟨h1, h2⟩
    · simp only [dedupFGo, if_neg hb, List.mem_cons, ih]
      constructor
      · rintro (rfl | ⟨h1, h2⟩)
        · exact ⟨Or.inl rfl, hb⟩
        · exact ⟨Or.inr h1, fun hs => h2 (Or.inr hs)⟩
      · rintro ⟨rfl | h1, h2⟩
        · exact Or.inl rfl
        · by_cases hab : a = b
          · exact Or.inl hab
          · exact Or.inr ⟨h1, fun hs => hs.elim hab h2⟩

lemma nodup_dedupFGo {α : Type} [DecidableEq α] :
    ∀ (l seen : List α), (dedupFGo seen l).Nodup := by
  intro l
  induction l with
  | nil => intro seen; simp [dedupFGo]
  | cons b rest ih =>
    intro seen
    by_cases hb : b ∈ seen
    · simpa [dedupFGo, if_pos hb] using ih seen
    · rw [dedupFGo, if_neg hb]
      refine List.nodup_cons.mpr ⟨fun hmem => ?_, ih (b :: seen)⟩
      exact ((mem_dedupFGo rest (b :: seen) b).mp hmem).2 (List.mem_cons_self b seen)

lemma mem_dedupF {α : Type} [DecidableEq α] {l : List α} {a : α} :
    a ∈ dedupF l ↔ a ∈ l := by
  simp [dedupF, mem_dedupFGo]

lemma nodup_dedupF {α : Type} [DecidableEq α] (l : List α) : (dedupF l).Nodup :=
  nodup_dedupFGo l []

/-! ### Lemmas: the mention-table dedup (`_dedupe_entities`) -/

lemma mem_dedupeGo :
    ∀ (l seen : List _) (m : NMention), m ∈ dedupeGo seen l →
      m ∈ l ∧ mentionKey m ∉ seen := by
  intro l
  induction l with
  | nil => intro seen m h; simp [dedupeGo] at h
  | cons a rest ih =>
    intro seen m h
    by_cases ha : mentionKey a ∈ seen
    · rw [dedupeGo, if_pos ha] at h
      exact ⟨List.mem_cons_of_mem _ (ih seen m h).1, (ih seen m h).2⟩
    · rw [dedupeGo, if_neg ha] at h
      rcases List.mem_cons.mp h with rfl | h2
      · exact ⟨List.mem_cons_self _ _, ha⟩
      · have := ih _ m h2
        exact ⟨List.mem_cons_of_mem _ this.1,
          fun hs => this.2 (List.mem_cons_of_mem _ hs)⟩

lemma nodup_keys_dedupeGo :
    ∀ (l seen : List _), ((dedupeGo seen l).map mentionKey).Nodup := by
  intro l
  induction l with
  | nil => intro seen; simp [dedupeGo]
  | cons a rest ih =>
    intro seen
    by_cases ha : mentionKey a ∈ seen
    · simpa [dedupeGo, if_pos ha] using ih seen
    · rw [dedupeGo, if_neg ha, List.map_cons]
      refine List.nodup_cons.mpr ⟨fun hmem => ?_, ih _⟩
      rcases List.mem_map.mp hmem with ⟨x, hx, hkx⟩
      exact (mem_dedupeGo rest _ x hx).2 (hkx ▸ List.mem_cons_self _ _)

lemma find_dedupeGo :
    ∀ (l seen : List _) (m : NMention), m ∈ dedupeGo seen l →
      l.find? (fun x => decide (mentionKey x = mentionKey m)) = some m := by
  intro l
  induction l with
  | nil => intro seen m h; simp [dedupeGo] at h
  | cons a rest ih =>
    intro seen m h
    by_cases ha : mentionKey a ∈ seen
    · rw [dedupeGo, if_pos ha] at h
      have hne : mentionKey a ≠ mentionKey m :=
        fun he => (mem_dedupeGo rest seen m h).2 (he ▸ ha)
      rw [List.find?_cons_of_neg _ (by simpa using hne)]
      exact ih seen m h
    · rw [dedupeGo, if_neg ha] at h
      rcases List.mem_cons.mp h with rfl | h2
      · rw [List.find?_cons_of_pos _ (by simp)]
      · have hne : mentionKey a ≠ mentionKey m := by
          have := (mem_dedupeGo rest _ m h2).2
          exact fun he => this (he ▸ List.mem_cons_self _ _)
        rw [List.find?_cons_of_neg _ (by simpa using hne)]
        exact ih _ m h2

lemma complete_dedupeGo :
    ∀ (l seen : List _) (m : NMention), m ∈ l →
      mentionKey m ∈ seen ∨ mentionKey m ∈ (dedupeGo seen l).map mentionKey := by
  intro l
  induction l with
  | nil => intro seen m h; simp at h
  | cons a rest ih =>
    intro seen m h
    by_cases ha : mentionKey a ∈ seen
    · rw [dedupeGo, if_pos ha]
      rcases List.mem_cons.mp h with rfl | h2
      · exact Or.inl ha
      · exact ih seen m h2
    · rw [dedupeGo, if_neg ha, List.map_cons]
      rcases List.mem_cons.mp h with rfl | h2
      · exact Or.inr (List.mem_cons_self _ _)
      · rcases ih (mentionKey a :: seen) m h2 with hs | hs
        · rcases List.mem_cons.mp hs with he | he
          · exact Or.inr (he ▸ List.mem_cons_self _ _)
          · exact Or.inl he
        · exact Or.inr (List.mem_cons_of_mem _ hs)

/-- Claim C4: in the table returned by the Mention Aggregator, the identity
tuple `(document_id, start, end, category, normalized_text)` is unique; every
surviving row is the first row of the (length-filtered) input carrying its
key, so the first occurrence wins for the provenance fields; every
length-admissible input mention is represented; and two structurally
identical mentions from different taggers collapse to exactly one row, the
first one. -/
theorem c4_mention_dedup_invariant :
    (∀ recs : List NMention, ((aggregateRecords recs).map mentionKey).Nodup) ∧
    (∀ (recs : List NMention) (m : NMention), m ∈ aggregateRecords recs →
      (recs.filter (fun x => 2 ≤ x.entity_norm.length)).find?
        (fun x => decide (mentionKey x = mentionKey m)) = some m) ∧
    (∀ (recs : List NMention) (m : NMention), m ∈ recs → 2 ≤ m.entity_norm.length →
      mentionKey m ∈ (aggregateRecords recs).map mentionKey) ∧
    aggregateRecords [exDupA, exDupB] = [exDupA] := by
  refine ⟨fun recs => nodup_keys_dedupeGo _ [], fun recs m hm => find_dedupeGo _ [] m hm,
    fun recs m hm hlen => ?_, by decide⟩
  have hmem : m ∈ recs.filter (fun x => 2 ≤ x.entity_norm.length) :=
    List.mem_filter.mpr ⟨hm, by simpa using hlen⟩
  rcases complete_dedupeGo _ [] m hmem with hs | hs
  · simp at hs
  · exact hs

/-- Witness for the hypotheses of `c4_mention_dedup_invariant` at concrete
inputs. -/
theorem c4_mention_dedup_invariant_witness :
    ([exDupA, exDupB].filter (fun x => 2 ≤ x.entity_norm.length)).find?
        (fun x => decide (mentionKey x = mentionKey exDupA)) = some exDupA ∧
    mentionKey exDupA ∈ (aggregateRecords [exDupA, exDupB]).map mentionKey :=
  ⟨c4_mention_dedup_invariant.2.1 [exDupA, exDupB] exDupA (by decide),
   c4_mention_dedup_invariant.2.2.1 [exDupA, exDupB] exDupA (by decide) (by decide)⟩

/-! ### Lemmas: the Span Resolver -/

lemma sliceN_eq_nil {t : List Nat} {a b : Int} (h : b ≤ a) : sliceN t a b = [] := by
  unfold sliceN
  refine List.drop_eq_nil_of_le ?_
  calc (t.take b.toNat).length ≤ b.toNat := by
        simp [List.length_take_le b.toNat t]
    _ ≤ a.toNat := Int.toNat_le_toNat h

lemma sliceN_append {t : List Nat} {a b c : Int} (_h0 : 0 ≤ a) (hab : a ≤ b)
    (hbc : b ≤ c) (hc : c ≤ (t.length : Int)) :
    sliceN t a b ++ sliceN t b c = sliceN t a c := by
  unfold sliceN
  have hAB : a.toNat ≤ b.toNat := Int.toNat_le_toNat hab
  have hBC : b.toNat ≤ c.toNat := Int.toNat_le_toNat hbc
  have hCL : c.toNat ≤ t.length := Int.toNat_le.mpr hc
  have htake : (t.take c.toNat).take b.toNat = t.take b.toNat := by
    rw [List.take_take, Nat.min_eq_left hBC]
  conv_rhs => rw [← List.take_append_drop b.toNat (t.take c.toNat), htake]
  rw [List.drop_append_eq_append_drop]
  have hlen : (t.take b.toNat).length = b.toNat := by
    rw [List.length_take, Nat.min_eq_left (le_trans hBC hCL)]
  rw [hlen, Nat.sub_eq_zero_of_le hAB, List.drop_zero]

lemma greedySpans_ok {n : Nat} :
    ∀ (l : List (Int × Int × List Nat)) (lastEnd c : Int),
      (∀ y ∈ l, 0 ≤ y.1 ∧ y.1 < y.2.1 ∧ y.2.1 ≤ (n : Int)) →
      (c ≤ lastEnd ∨ c ≤ 0) → okFrom n c (greedySpans lastEnd l) := by
  intro l
  induction l with
  | nil => intro lastEnd c _ _; trivial
  | cons y rest ih =>
    intro lastEnd c hb hc
    by_cases hy : y.1 < lastEnd
    · rw [greedySpans, if_pos hy]
      exact ih lastEnd c (fun z hz => hb z (List.mem_cons_of_mem _ hz)) hc
    · rw [greedySpans, if_neg hy]
      have hyb := hb y (List.mem_cons_self _ _)
      refine ⟨?_, hyb.2.1, hyb.2.2, ?_⟩
      · rcases hc with hc | hc
        · exact le_trans hc (not_lt.mp hy)
        · exact le_trans hc hyb.1
      · exact ih y.2.1 y.2.1 (fun z hz => hb z (List.mem_cons_of_mem _ hz)) (Or.inl le_rfl)

lemma concatSegs_append (l₁ l₂ : List Seg) :
    concatSegs (l₁ ++ l₂) = concatSegs l₁ ++ concatSegs l₂ := by
  simp [concatSegs]

lemma emitSegs_concat (text : List Nat) :
    ∀ (spans : List (Int × Int × List Nat)) (cursor : Int), 0 ≤ cursor →
      okFrom text.length cursor spans →
      concatSegs (emitSegs text cursor spans) = sliceN text cursor (text.length : Int) := by
  intro spans
  induction spans with
  | nil =>
    intro cursor _ _
    rw [emitSegs]
    by_cases hcl : cursor < (text.length : Int)
    · rw [if_pos hcl]; simp [concatSegs]
    · rw [if_neg hcl]
      simp only [concatSegs, List.flatMap_nil]
      exact (sliceN_eq_nil (not_lt.mp hcl)).symm
  | cons sp rest ih =>
    intro cursor hc hok
    obtain ⟨h1, h2, h3, h4⟩ := hok
    rw [emitSegs, concatSegs_append]
    have htail : concatSegs (Seg.entity sp.1 sp.2.1 sp.2.2 (sliceN text sp.1 sp.2.1)
        :: emitSegs text sp.2.1 rest)
        = sliceN text sp.1 sp.2.1 ++ concatSegs (emitSegs text sp.2.1 rest) := by
      simp [concatSegs]
    rw [htail, ih sp.2.1 (le_trans hc (le_trans h1 (le_of_lt h2))) h4,
      sliceN_append (le_trans hc h1) (le_of_lt h2) h3 le_rfl]
    by_cases hcs : cursor < sp.1
    · rw [if_pos hcs]
      have hpl : concatSegs [Seg.plain (sliceN text cursor sp.1)] = sliceN text cursor sp.1 := by
        simp [concatSegs]
      rw [hpl]
      exact sliceN_append hc (le_of_lt hcs) (le_trans (le_of_lt h2) h3) le_rfl
    · rw [if_neg hcs]
      have hce : cursor = sp.1 := le_antisymm h1 (not_lt.mp hcs)
      simp [concatSegs, hce]

lemma mem_filterSpans {textLen : Nat} {l : List PyMention} {y : Int × Int × List Nat}
    (h : y ∈ filterSpans textLen l) : 0 ≤ y.1 ∧ y.1 < y.2.1 ∧ y.2.1 ≤ (textLen : Int) := by
  have := (List.mem_filter.mp h).2
  simpa using this

/-- Claim C1: for every document text and every mention set (including a
missing frame), concatenating the resolver's output runs in order reproduces
the document text exactly. -/
theorem c1_span_resolver_reconstruction :
    ∀ (text : List Nat) (ments : Option (List PyMention)) (cap : Nat),
      concatSegs (resolveSegments text ments cap) = text := by
  intro text ments cap
  by_cases ht : text = []
  · subst ht; simp [resolveSegments, concatSegs]
  · rcases ments with _ | l
    · simp [resolveSegments, ht, concatSegs]
    · by_cases hl : l = []
      · simp [resolveSegments, ht, hl, concatSegs]
      · by_cases hf : filterSpans text.length l = []
        · simp [resolveSegments, ht, hl, hf, concatSegs]
        · have hres : resolveSegments text (some l) cap
              = emitSegs text 0
                (greedySpans (-1) ((sortSpans (filterSpans text.length l)).take cap)) := by
            simp [resolveSegments, ht, hl, hf]
          have hbounds : ∀ y ∈ (sortSpans (filterSpans text.length l)).take cap,
              0 ≤ y.1 ∧ y.1 < y.2.1 ∧ y.2.1 ≤ ((text.length : Nat) : Int) := by
            intro y hy
            have hy1 : y ∈ sortSpans (filterSpans text.length l) :=
              List.mem_of_mem_take hy
            have hy2 : y ∈ filterSpans text.length l :=
              (List.perm_insertionSort leSpan _).mem_iff.mp hy1
            exact mem_filterSpans hy2
          have hok := greedySpans_ok _ (-1) 0 hbounds (Or.inr le_rfl)
          rw [hres, emitSegs_concat text _ 0 le_rfl hok]
          unfold sliceN
          simp

/-- Claim C2: the candidate order is by start ascending with ties by end
descending; the greedy scan accepts a candidate exactly when its start is at
or after the end of the last accepted span and drops it otherwise; and on the
two mentions `[0,5,"DISEASE")`, `[3,8,"DRUG")` over an eight-character
document the second is dropped, leaving exactly one entity run spanning
`[0,5)`. -/
theorem c2_span_resolver_overlap_policy :
    (∀ l : List (Int × Int × List Nat), List.Sorted leSpan (sortSpans l)) ∧
    (∀ (lastEnd : Int) (x : Int × Int × List Nat) (rest : List (Int × Int × List Nat)),
      (x.1 < lastEnd → greedySpans lastEnd (x :: rest) = greedySpans lastEnd rest) ∧
      (lastEnd ≤ x.1 → greedySpans lastEnd (x :: rest)
        = (x.1, x.2.1, upperPy x.2.2) :: greedySpans x.2.1 rest)) ∧
    resolveSegments exOverlapDoc (some exOverlapMents) 200
      = [Seg.entity 0 5 (pyStr "DISEASE") (pyStr "abcde"), Seg.plain (pyStr "fgh")] := by
  refine ⟨fun l => List.sorted_insertionSort leSpan l, fun lastEnd x rest => ⟨?_, ?_⟩, by decide⟩
  · intro h; rw [greedySpans, if_pos h]
  · intro h; rw [greedySpans, if_neg (not_lt.mpr h)]

/-- Witness for the hypotheses of `c2_span_resolver_overlap_policy` at
concrete inputs: the candidate `(3, 8)` is dropped against `last_end = 5`,
and the candidate `(0, 5)` is accepted against the initial `last_end = -1`. -/
theorem c2_span_resolver_overlap_policy_witness :
    greedySpans 5 [((3 : Int), (8 : Int), pyStr "DRUG")] = greedySpans 5 [] ∧
    greedySpans (-1) [((0 : Int), (5 : Int), pyStr "DISEASE")]
      = ((0 : Int), (5 : Int), upperPy (pyStr "DISEASE")) :: greedySpans 5 [] :=
  ⟨(c2_span_resolver_overlap_policy.2.1 5 (3, 8, pyStr "DRUG") []).1 (by decide),
   (c2_span_resolver_overlap_policy.2.1 (-1) (0, 5, pyStr "DISEASE") []).2 (by decide)⟩

/-! ### Lemmas for the span cap -/

lemma countP_emitSegs (text : List Nat) :
    ∀ (spans : List (Int × Int × List Nat)) (cursor : Int),
      (emitSegs text cursor spans).countP isEntitySeg = spans.length := by
  intro spans
  induction spans with
  | nil =>
    intro cursor
    rw [emitSegs]
    by_cases h : cursor < (text.length : Int)
    · rw [if_pos h]; simp [isEntitySeg]
    · rw [if_neg h]; simp
  | cons sp rest ih =>
    intro cursor
    rw [emitSegs, List.countP_append]
    by_cases h : cursor < sp.1
    · rw [if_pos h]; simp [isEntitySeg, ih, List.countP_cons]
    · rw [if_neg h]; simp [isEntitySeg, ih, List.countP_cons]

lemma length_greedySpans :
    ∀ (l : List (Int × Int × List Nat)) (lastEnd : Int),
      (greedySpans lastEnd l).length ≤ l.length := by
  intro l
  induction l with
  | nil => intro lastEnd; simp [greedySpans]
  | cons c rest ih =>
    intro lastEnd
    rw [greedySpans]
    by_cases h : c.1 < lastEnd
    · rw [if_pos h]; exact le_trans (ih lastEnd) (Nat.le_succ _)
    · rw [if_neg h]; simpa using ih c.2.1

/-- Claim C5: the number of entity runs never exceeds the cap (enforced by
truncating the sorted candidate list before the greedy scan), and with 500
non-overlapping single-character mentions and a cap of 200 the output has
exactly 200 entity runs, namely the earliest 200 in start order. -/
theorem c5_span_resolver_cap :
    (∀ (text : List Nat) (ments : Option (List PyMention)) (cap : Nat),
      (resolveSegments text ments cap).countP isEntitySeg ≤ cap) ∧
    (resolveSegments exCapDoc (some exCapMents) 200).countP isEntitySeg = 200 ∧
    entitySpans (resolveSegments exCapDoc (some exCapMents) 200)
      = (List.range 200).map (fun i => ((i : Int), (i : Int) + 1)) := by
  refine ⟨fun text ments cap => ?_, by decide, by decide⟩
  by_cases ht : text = []
  · subst ht; simp [resolveSegments]
  · rcases ments with _ | l
    · simp [resolveSegments, ht, isEntitySeg, List.countP_cons]
    · by_cases hl : l = []
      · simp [resolveSegments, ht, hl, isEntitySeg, List.countP_cons]
      · by_cases hf : filterSpans text.length l = []
        · simp [resolveSegments, ht, hl, hf, isEntitySeg, List.countP_cons]
        · have hres : resolveSegments text (some l) cap
              = emitSegs text 0
                (greedySpans (-1) ((sortSpans (filterSpans text.length l)).take cap)) := by
            simp [resolveSegments, ht, hl, hf]
          rw [hres, countP_emitSegs]
          calc (greedySpans (-1) ((sortSpans (filterSpans text.length l)).take cap)).length
              ≤ ((sortSpans (filterSpans text.length l)).take cap).length :=
                length_greedySpans _ _
            _ ≤ cap := List.length_take_le cap _

/-- Claim C10: on an empty document `annotate_text_html` returns the fixed
container `<div></div>` whatever the mentions argument is; and whenever the
mention frame is missing, empty, or empty after offset filtering, the
resolver yields the whole document as a single plain run with no entity
runs. -/
theorem c10_span_resolver_degenerate_inputs :
    (∀ (ments : Option (List PyMention)) (showTag : Bool) (cap : Nat)
      (colors : List Nat → List Nat × List Nat),
      annotate_text_html [] ments showTag cap colors = pyStr "<div></div>") ∧
    (∀ (text : List Nat) (cap : Nat), text ≠ [] →
      resolveSegments text none cap = [Seg.plain text]) ∧
    (∀ (text : List Nat) (cap : Nat), text ≠ [] →
      resolveSegments text (some []) cap = [Seg.plain text]) ∧
    (∀ (text : List Nat) (l : List PyMention) (cap : Nat), text ≠ [] →
      filterSpans text.length l = [] → resolveSegments text (some l) cap = [Seg.plain text]) := by
  refine ⟨fun ments showTag cap colors => by simp [annotate_text_html],
    fun text cap ht => by simp [resolveSegments, ht],
    fun text cap ht => by simp [resolveSegments, ht],
    fun text l cap ht hf => ?_⟩
  by_cases hl : l = []
  · simp [resolveSegments, ht, hl]
  · simp [resolveSegments, ht, hl, hf]

/-- Witness for the hypotheses of `c10_span_resolver_degenerate_inputs` at
concrete inputs. -/
theorem c10_span_resolver_degenerate_inputs_witness :
    resolveSegments (pyStr "ab") none 200 = [Seg.plain (pyStr "ab")] ∧
    resolveSegments (pyStr "ab") (some []) 200 = [Seg.plain (pyStr "ab")] ∧
    resolveSegments (pyStr "ab")
      (some [{ start := none, endPos := some 2, label_group := pyStr "DISEASE" }]) 200
      = [Seg.plain (pyStr "ab")] :=
  ⟨c10_span_resolver_degenerate_inputs.2.1 (pyStr "ab") 200 (by decide),
   c10_span_resolver_degenerate_inputs.2.2.1 (pyStr "ab") 200 (by decide),
   c10_span_resolver_degenerate_inputs.2.2.2 (pyStr "ab")
     [{ start := none, endPos := some 2, label_group := pyStr "DISEASE" }] 200
     (by decide) (by decide)⟩

/-! ### Lemmas: membership in the co-occurrence intermediates -/

lemma mem_coFiltered {tbl : List NMention} {lg rg : List Nat} {m : NMention} :
    m ∈ coFiltered tbl lg rg ↔ m ∈ tbl ∧ (m.label_group = lg ∨ m.label_group = rg) := by
  simp [coFiltered, List.mem_filter]

lemma mem_coRestricted {tbl : List NMention} {lg rg : List Nat} {tl tr : Nat} {m : NMention} :
    m ∈ coRestricted tbl lg rg tl tr ↔
      m ∈ tbl ∧ (m.label_group = lg ∨ m.label_group = rg) ∧
        m.entity_norm ∈ coTopUnion tbl lg rg tl tr := by
  simp [coRestricted, List.mem_filter, mem_coFiltered, and_assoc]

lemma mem_coGroupSet {d : List NMention} {g t x : List Nat} :
    x ∈ coGroupSet d g t ↔
      ∃ m ∈ d, m.nct_id = t ∧ m.label_group = g ∧ m.entity_norm = x := by
  simp only [coGroupSet, mem_dedupF, List.mem_map, List.mem_filter, decide_eq_true_eq]
  constructor
  · rintro ⟨m, ⟨hm, h1, h2⟩, h3⟩; exact ⟨m, hm, h1, h2, h3⟩
  · rintro ⟨m, hm, h1, h2, h3⟩; exact ⟨m, ⟨hm, h1, h2⟩, h3⟩

lemma top_entities_nil_of_no_members {df : List NMention} {g : List Nat} {n : Nat}
    (h : ∀ m ∈ df, m.label_group ≠ g) : _top_entities df g n = [] := by
  have hfil : df.filter (fun r => decide (r.label_group = g)) = [] := by
    rw [List.filter_eq_nil_iff]
    intro m hm
    simpa using h m hm
  simp [_top_entities, hfil, dedupF, dedupFGo]

/-- Claim C9: degenerate inputs to the Co-occurrence Builder and the
Per-Trial Table Builder are not errors: an empty mention table, a category
with no members, a table in which no trial contains both categories, and an
unknown or mention-free document id each yield an empty result table. -/
theorem c9_empty_inputs_yield_empty_tables :
    (∀ (lg rg : List Nat) (tl tr : Nat), build_cooccurrence_long [] lg rg tl tr = []) ∧
    (∀ (tbl : List NMention) (lg rg : List Nat) (tl tr : Nat),
      (∀ m ∈ tbl, m.label_group ≠ rg) → build_cooccurrence_long tbl lg rg tl tr = []) ∧
    (∀ (tbl : List NMention) (lg rg : List Nat) (tl tr : Nat),
      (∀ m ∈ tbl, ∀ m' ∈ tbl, m.label_group = lg → m'.label_group = rg →
        m.nct_id ≠ m'.nct_id) →
      build_cooccurrence_long tbl lg rg tl tr = []) ∧
    (∀ nid : List Nat, per_trial_entity_table [] nid = []) ∧
    (∀ (tbl : List NMention) (nid : List Nat), (∀ m ∈ tbl, m.nct_id ≠ nid) →
      per_trial_entity_table tbl nid = []) := by
  refine ⟨fun lg rg tl tr => rfl, fun tbl lg rg tl tr h => ?_, fun tbl lg rg tl tr H => ?_,
    fun nid => rfl, fun tbl nid h => ?_⟩
  · have h3top : _top_entities (coFiltered tbl lg rg) rg tr = [] :=
      top_entities_nil_of_no_members (fun m hm => h m (mem_coFiltered.mp hm).1)
    simp [build_cooccurrence_long, h3top]
  · have hrows : coRows tbl lg rg tl tr = [] := by
      rw [List.eq_nil_iff_forall_not_mem]
      intro x hx
      rcases List.mem_flatMap.mp hx with ⟨t, _ht, hxt⟩
      by_cases hc : ((coGroupSet (coRestricted tbl lg rg tl tr) lg t).isEmpty
          || (coGroupSet (coRestricted tbl lg rg tl tr) rg t).isEmpty) = true
      · rw [if_pos hc] at hxt
        exact absurd hxt (List.not_mem_nil x)
      · rw [if_neg hc] at hxt
        rcases Bool.or_eq_false_iff.mp (Bool.eq_false_iff.mpr hc) with ⟨hl, hr⟩
        rcases List.exists_mem_of_ne_nil (l := coGroupSet (coRestricted tbl lg rg tl tr) lg t)
          (fun he => by rw [he] at hl; simp at hl) with ⟨a, ha⟩
        rcases List.exists_mem_of_ne_nil (l := coGroupSet (coRestricted tbl lg rg tl tr) rg t)
          (fun he => by rw [he] at hr; simp at hr) with ⟨b, hb⟩
        rcases mem_coGroupSet.mp ha with ⟨m, hmR, hmt, hml, _⟩
        rcases mem_coGroupSet.mp hb with ⟨m', hmR', hmt', hml', _⟩
        exact H m (mem_coRestricted.mp hmR).1 m' (mem_coRestricted.mp hmR').1 hml hml'
          (hmt.trans hmt'.symm)
    simp [build_cooccurrence_long, hrows]
  · have hfil : pt_filtered tbl nid = [] := by
      rw [pt_filtered, List.filter_eq_nil_iff]
      intro m hm
      simpa using h m hm
    simp [per_trial_entity_table, per_trial_entity_table_rep, hfil]

/-- Witness for the hypotheses of `c9_empty_inputs_yield_empty_tables` at
concrete inputs: a DISEASE-only table has no DRUG members, a two-trial table
separates the two categories, and `"ZZ"` is an unknown document id. -/
theorem c9_empty_inputs_yield_empty_tables_witness :
    build_cooccurrence_long exSingleTbl (pyStr "DISEASE") (pyStr "DRUG") 5 5 = [] ∧
    build_cooccurrence_long [mkRow "A" "x" "x" "DISEASE" 0 1, mkRow "B" "y" "y" "DRUG" 0 1]
      (pyStr "DISEASE") (pyStr "DRUG") 5 5 = [] ∧
    per_trial_entity_table exSingleTbl (pyStr "ZZ") = [] :=
  ⟨c9_empty_inputs_yield_empty_tables.2.1 exSingleTbl (pyStr "DISEASE") (pyStr "DRUG") 5 5
      (by decide),
   c9_empty_inputs_yield_empty_tables.2.2.1
      [mkRow "A" "x" "x" "DISEASE" 0 1, mkRow "B" "y" "y" "DRUG" 0 1]
      (pyStr "DISEASE") (pyStr "DRUG") 5 5 (by decide),
   c9_empty_inputs_yield_empty_tables.2.2.2.2 exSingleTbl (pyStr "ZZ") (by decide)⟩

/-! ### Lemmas: lexicographic order and the per-trial table -/

lemma lexNatLt_trans : ∀ {a b c : List Nat},
    lexNatLt a b = true → lexNatLt b c = true → lexNatLt a c = true := by
  intro a
  induction a with
  | nil =>
    intro b c hab hbc
    cases b with
    | nil => simp [lexNatLt] at hab
    | cons y bs =>
      cases c with
      | nil => simp [lexNatLt] at hbc
      | cons z cs => simp [lexNatLt]
  | cons x as ih =>
    intro b c hab hbc
    cases b with
    | nil => simp [lexNatLt] at hab
    | cons y bs =>
      cases c with
      | nil => simp [lexNatLt] at hbc
      | cons z cs =>
        rw [lexNatLt] at hab hbc ⊢
        by_cases hxy : x < y
        · rw [if_pos hxy] at hab
          by_cases hyz : y < z
          · rw [if_pos (by omega : x < z)]
          · rw [if_neg hyz] at hbc
            by_cases hzy : z < y
            · rw [if_pos hzy] at hbc; exact absurd hbc (by simp)
            · rw [if_pos (by omega : x < z)]
        · rw [if_neg hxy] at hab
          by_cases hyx : y < x
          · rw [if_pos hyx] at hab; exact absurd hab (by simp)
          · rw [if_neg hyx] at hab
            by_cases hyz : y < z
            · rw [if_pos hyz] at hbc
              rw [if_pos (by omega : x < z)]
            · rw [if_neg hyz] at hbc
              by_cases hzy : z < y
              · rw [if_pos hzy] at hbc; exact absurd hbc (by simp)
              · rw [if_neg hzy] at hbc
                rw [if_neg (by omega : ¬x < z), if_neg (by omega : ¬z < x)]
                exact ih hab hbc

lemma lexNatLt_connex : ∀ a b : List Nat,
    lexNatLt a b = true ∨ lexNatLt b a = true ∨ a = b := by
  intro a
  induction a with
  | nil =>
    intro b
    cases b with
    | nil => exact Or.inr (Or.inr rfl)
    | cons y bs => exact Or.inl (by simp [lexNatLt])
  | cons x as ih =>
    intro b
    cases b with
    | nil => exact Or.inr (Or.inl (by simp [lexNatLt]))
    | cons y bs =>
      by_cases hxy : x < y
      · exact Or.inl (by rw [lexNatLt, if_pos hxy])
      · by_cases hyx : y < x
        · exact Or.inr (Or.inl (by rw [lexNatLt, if_pos hyx]))
        · have hxy' : x = y := by omega
          subst hxy'
          rcases ih bs with h | h | h
          · exact Or.inl (by rw [lexNatLt, if_neg hxy, if_neg hyx]; exact h)
          · exact Or.inr (Or.inl (by rw [lexNatLt, if_neg hyx, if_neg hxy]; exact h))
          · exact Or.inr (Or.inr (by rw [h]))

instance : IsTotal PTRow ptLe :=
  ⟨fun a b => by
    unfold ptLe
    rcases lexNatLt_connex a.label_group b.label_group with h | h | h
    · exact Or.inl (Or.inl h)
    · exact Or.inr (Or.inl h)
    · rcases le_total b.mentions a.mentions with hm | hm
      · exact Or.inl (Or.inr ⟨h, hm⟩)
      · exact Or.inr (Or.inr ⟨h.symm, hm⟩)⟩

instance : IsTrans PTRow ptLe :=
  ⟨fun a b c hab hbc => by
    unfold ptLe at *
    rcases hab with h1 | ⟨h1, m1⟩
    · rcases hbc with h2 | ⟨h2, m2⟩
      · exact Or.inl (lexNatLt_trans h1 h2)
      · exact Or.inl (h2 ▸ h1)
    · rcases hbc with h2 | ⟨h2, m2⟩
      · exact Or.inl (h1 ▸ h2)
      · exact Or.inr ⟨h1.trans h2, le_trans m2 m1⟩⟩

lemma argmax_foldl (cnt : List Nat → Nat) :
    ∀ (xs : List (List Nat)) (b : List Nat),
      (∀ y ∈ b :: xs,
        cnt y ≤ cnt (xs.foldl (fun best y => if cnt best < cnt y then y else best) b)) ∧
      ∃ pre post,
        b :: xs = pre ++ (xs.foldl (fun best y => if cnt best < cnt y then y else best) b) :: post ∧
        ∀ y ∈ pre, cnt y < cnt (xs.foldl (fun best y => if cnt best < cnt y then y else best) b) := by
  intro xs
  induction xs with
  | nil =>
    intro b
    constructor
    · intro y hy
      rcases List.mem_cons.mp hy with rfl | hy
      · exact le_rfl
      · simp at hy
    · exact ⟨[], [], rfl, by simp⟩
  | cons y xs ih =>
    intro b
    rw [List.foldl_cons]
    by_cases h : cnt b < cnt y
    · rw [if_pos h]
      obtain ⟨hbound, pre', post', hdec, hpre⟩ := ih y
      have hres : cnt b <
          cnt (xs.foldl (fun best y => if cnt best < cnt y then y else best) y) :=
        lt_of_lt_of_le h (hbound y (List.mem_cons_self _ _))
      refine ⟨?_, b :: pre', post', by rw [List.cons_append, hdec], ?_⟩
      · intro z hz
        rcases List.mem_cons.mp hz with rfl | hz
        · exact le_of_lt hres
        · exact hbound z hz
      · intro z hz
        rcases List.mem_cons.mp hz with rfl | hz
        · exact hres
        · exact hpre z hz
    · rw [if_neg h]
      obtain ⟨hbound, pre', post', hdec, hpre⟩ := ih b
      have hyb : cnt y ≤ cnt b := not_lt.mp h
      refine ⟨?_, ?_⟩
      · intro z hz
        rcases List.mem_cons.mp hz with rfl | hz
        · exact hbound z (List.mem_cons_self _ _)
        · rcases List.mem_cons.mp hz with rfl | hz
          · exact le_trans hyb (hbound b (List.mem_cons_self _ _))
          · exact hbound z (List.mem_cons_of_mem _ hz)
      · cases pre' with
        | nil =>
          simp only [List.nil_append] at hdec
          rw [List.cons.injEq] at hdec
          refine ⟨[], y :: xs, ?_, by simp⟩
          rw [List.nil_append, ← hdec.1]
        | cons p pre'' =>
          rw [List.cons_append, List.cons.injEq] at hdec
          obtain ⟨hpb, hxs⟩ := hdec
          have hblt : cnt b <
              cnt (xs.foldl (fun best y => if cnt best < cnt y then y else best) b) :=
            hpb ▸ hpre p (List.mem_cons_self _ _)
          refine ⟨b :: y :: pre'', post', ?_, ?_⟩
          · conv_lhs => rw [hxs]
            simp
          · intro z hz
            rcases List.mem_cons.mp hz with rfl | hz
            · exact hblt
            · rcases List.mem_cons.mp hz with rfl | hz
              · exact lt_of_le_of_lt hyb hblt
              · exact hpre z (List.mem_cons_of_mem _ hz)

lemma mostFreqFirst_spec {l : List (List Nat)} (hne : l ≠ []) :
    mostFreqFirst l ∈ l ∧ (∀ y ∈ l, l.count y ≤ l.count (mostFreqFirst l)) ∧
    ∃ pre post, dedupF l = pre ++ mostFreqFirst l :: post ∧
      ∀ y ∈ pre, l.count y < l.count (mostFreqFirst l) := by
  have hdne : dedupF l ≠ [] := by
    rcases List.exists_mem_of_ne_nil (l := l) hne with ⟨a, ha⟩
    exact List.ne_nil_of_mem (mem_dedupF.mpr ha)
  obtain ⟨x, xs, hd⟩ := List.exists_cons_of_ne_nil hdne
  have hmf : mostFreqFirst l = xs.foldl
      (fun best y => if l.count best < l.count y then y else best) x := by
    rw [mostFreqFirst, hd]
  obtain ⟨hbound, pre, post, hdec, hpre⟩ := argmax_foldl l.count xs x
  rw [← hmf] at hbound hdec hpre
  rw [← hd] at hbound hdec
  refine ⟨?_, ?_, pre, post, hdec, hpre⟩
  · have : mostFreqFirst l ∈ dedupF l := by
      rw [hdec]; exact List.mem_append_right _ (List.mem_cons_self _ _)
    exact mem_dedupF.mp this
  · intro y hy
    exact hbound y (mem_dedupF.mpr hy)

lemma mem_pt_keys {d : List NMention} {k : List Nat × List Nat} :
    k ∈ pt_keys d ↔ ∃ r ∈ d, r.label_group = k.1 ∧ r.entity_norm = k.2 := by
  rw [pt_keys, (List.perm_insertionSort leKeyAsc _).mem_iff, mem_dedupF]
  constructor
  · intro h
    rcases List.mem_map.mp h with ⟨r, hr, hk⟩
    exact ⟨r, hr, by rw [← hk], by rw [← hk]⟩
  · rintro ⟨r, hr, h1, h2⟩
    exact List.mem_map.mpr ⟨r, hr, by rw [h1, h2]⟩

lemma mem_per_trial_entity_table_rep {rep : List (List Nat) → List Nat}
    {tbl : List NMention} {nid : List Nat} {row : PTRow}
    (h : row ∈ per_trial_entity_table_rep rep tbl nid) :
    ∃ k ∈ pt_keys (pt_filtered tbl nid),
      row = { label_group := k.1, entity_text := rep (ptSurfaces tbl nid k),
              entity_norm := k.2, mentions := (ptGroup (pt_filtered tbl nid) k).length } := by
  by_cases h1 : tbl.isEmpty
  · rw [per_trial_entity_table_rep, if_pos h1] at h
    simp at h
  · rw [per_trial_entity_table_rep, if_neg h1] at h
    by_cases h2 : (pt_filtered tbl nid).isEmpty
    · rw [if_pos h2] at h
      simp at h
    · rw [if_neg h2] at h
      have h3 := (List.perm_insertionSort ptLe _).mem_iff.mp h
      rcases List.mem_map.mp h3 with ⟨k, hk, hrow⟩
      exact ⟨k, hk, by rw [← hrow]; rfl⟩

lemma per_trial_entity_table_rep_complete {rep : List (List Nat) → List Nat}
    {tbl : List NMention} {nid : List Nat}
    {k : List Nat × List Nat} (hk : k ∈ pt_keys (pt_filtered tbl nid)) :
    ({ label_group := k.1, entity_text := rep (ptSurfaces tbl nid k),
       entity_norm := k.2, mentions := (ptGroup (pt_filtered tbl nid) k).length : PTRow })
      ∈ per_trial_entity_table_rep rep tbl nid := by
  rcases mem_pt_keys.mp hk with ⟨r, hr, _, _⟩
  have h2 : ¬(pt_filtered tbl nid).isEmpty := by
    rw [List.isEmpty_iff]
    exact List.ne_nil_of_mem hr
  have h1 : ¬tbl.isEmpty := by
    rw [List.isEmpty_iff]
    exact List.ne_nil_of_mem (List.mem_of_mem_filter hr)
  rw [per_trial_entity_table_rep, if_neg h1, if_neg h2]
  refine (List.perm_insertionSort ptLe _).mem_iff.mpr ?_
  exact List.mem_map.mpr ⟨k, hk, rfl⟩

lemma ptSurfaces_ne_nil {tbl : List NMention} {nid : List Nat} {k : List Nat × List Nat}
    (hk : k ∈ pt_keys (pt_filtered tbl nid)) : ptSurfaces tbl nid k ≠ [] := by
  rcases mem_pt_keys.mp hk with ⟨r, hr, h1, h2⟩
  have : r.entity_text ∈ ptSurfaces tbl nid k := by
    refine List.mem_map.mpr ⟨r, ?_, rfl⟩
    exact List.mem_filter.mpr ⟨hr, by simp [h1, h2]⟩
  exact List.ne_nil_of_mem this

lemma repOk_mostFreqFirst : RepOk mostFreqFirst := fun _ hl =>
  ⟨(mostFreqFirst_spec hl).1, (mostFreqFirst_spec hl).2.1⟩

lemma repOk_mostFreqRev : RepOk (fun l => mostFreqFirst l.reverse) := by
  intro l hl
  have hrev : l.reverse ≠ [] := by simpa using hl
  obtain ⟨h1, h2, _⟩ := mostFreqFirst_spec hrev
  refine ⟨List.mem_reverse.mp h1, fun y hy => ?_⟩
  have h3 := h2 y (List.mem_reverse.mpr hy)
  simpa [List.count_reverse] using h3

/-- Claim C6 (code bug): the tie-break-independent parts of the claim hold
for every representative choice admitted by the code — the per-trial table
is sorted by category ascending then mention count descending, each row's
`mentions` is the size of its `(category, normalized_text)` group, each
row's surface form is a maximal-count surface form of its group, every group
of the document is represented, and on the Tumor table every admissible
choice produces exactly one row with `mentions = 3` whose representative is
one of the three tied surface forms.  But the claimed deterministic
first-seen tie-break is NOT a property of the program: the code's
representative is `s.value_counts().index[0]`, whose tie order pandas leaves
unspecified, and the last conjunct exhibits two admissible representative
choices that disagree on the Tumor table — so the output the claim pins down
(`"Tumor"`) is not determined by the code. -/
theorem c6_per_trial_table_representative :
    (∀ (rep : List (List Nat) → List Nat) (tbl : List NMention) (nid : List Nat),
      List.Sorted ptLe (per_trial_entity_table_rep rep tbl nid)) ∧
    (∀ rep : List (List Nat) → List Nat, RepOk rep →
      ∀ (tbl : List NMention) (nid : List Nat) (row : PTRow),
      row ∈ per_trial_entity_table_rep rep tbl nid →
      row.mentions
          = (ptGroup (pt_filtered tbl nid) (row.label_group, row.entity_norm)).length ∧
      row.entity_text ∈ ptSurfaces tbl nid (row.label_group, row.entity_norm) ∧
      (∀ y ∈ ptSurfaces tbl nid (row.label_group, row.entity_norm),
        (ptSurfaces tbl nid (row.label_group, row.entity_norm)).count y
          ≤ (ptSurfaces tbl nid (row.label_group, row.entity_norm)).count row.entity_text)) ∧
    (∀ (rep : List (List Nat) → List Nat) (tbl : List NMention) (nid lg en : List Nat),
      (∃ r ∈ pt_filtered tbl nid, r.label_group = lg ∧ r.entity_norm = en) →
      ∃ row ∈ per_trial_entity_table_rep rep tbl nid,
        row.label_group = lg ∧ row.entity_norm = en) ∧
    (∀ rep : List (List Nat) → List Nat,
      per_trial_entity_table_rep rep exTumorTbl (pyStr "T1")
        = [{ label_group := pyStr "DISEASE",
             entity_text := rep [pyStr "Tumor", pyStr "tumor", pyStr "TUMOR"],
             entity_norm := pyStr "tumor", mentions := 3 }]) ∧
    (∀ rep : List (List Nat) → List Nat, RepOk rep →
      rep [pyStr "Tumor", pyStr "tumor", pyStr "TUMOR"]
        ∈ [pyStr "Tumor", pyStr "tumor", pyStr "TUMOR"]) ∧
    (∃ rep₁ rep₂ : List (List Nat) → List Nat, RepOk rep₁ ∧ RepOk rep₂ ∧
      per_trial_entity_table_rep rep₁ exTumorTbl (pyStr "T1")
        ≠ per_trial_entity_table_rep rep₂ exTumorTbl (pyStr "T1")) := by
  refine ⟨fun rep tbl nid => ?_, fun rep hrep tbl nid row hrow => ?_,
    fun rep tbl nid lg en hex => ?_, fun rep => ?_, fun rep hrep => (hrep _ (by decide)).1,
    mostFreqFirst, fun l => mostFreqFirst l.reverse,
    repOk_mostFreqFirst, repOk_mostFreqRev, by decide⟩
  · by_cases h1 : tbl.isEmpty
    · rw [per_trial_entity_table_rep, if_pos h1]
      exact List.sorted_nil
    · rw [per_trial_entity_table_rep, if_neg h1]
      by_cases h2 : (pt_filtered tbl nid).isEmpty
      · rw [if_pos h2]
        exact List.sorted_nil
      · rw [if_neg h2]
        exact List.sorted_insertionSort ptLe _
  · rcases mem_per_trial_entity_table_rep hrow with ⟨k, hk, hrow⟩
    have hfields : (row.label_group, row.entity_norm) = k := by
      rw [hrow]
    rw [hfields]
    have hne : ptSurfaces tbl nid k ≠ [] := ptSurfaces_ne_nil hk
    obtain ⟨hmem, hmax⟩ := hrep _ hne
    have htext : row.entity_text = rep (ptSurfaces tbl nid k) := by rw [hrow]
    have hcount : row.mentions = (ptGroup (pt_filtered tbl nid) k).length := by rw [hrow]
    rw [htext, hcount]
    exact ⟨rfl, hmem, hmax⟩
  · rcases hex with ⟨r, hr, h1, h2⟩
    have hk : ((lg, en) : List Nat × List Nat) ∈ pt_keys (pt_filtered tbl nid) :=
      mem_pt_keys.mpr ⟨r, hr, h1, h2⟩
    exact ⟨_, per_trial_entity_table_rep_complete hk, rfl, rfl⟩
  · have hkeys : pt_keys (pt_filtered exTumorTbl (pyStr "T1"))
        = [(pyStr "DISEASE", pyStr "tumor")] := by decide
    have hsurf : (ptGroup (pt_filtered exTumorTbl (pyStr "T1"))
          (pyStr "DISEASE", pyStr "tumor")).map (fun r => r.entity_text)
        = [pyStr "Tumor", pyStr "tumor", pyStr "TUMOR"] := by decide
    have hlen : (ptGroup (pt_filtered exTumorTbl (pyStr "T1"))
        (pyStr "DISEASE", pyStr "tumor")).length = 3 := by decide
    rw [per_trial_entity_table_rep, if_neg (by decide), if_neg (by decide), hkeys,
      List.map_cons, List.map_nil, hsurf, hlen]
    rfl

/-- Witness for the hypotheses of `c6_per_trial_table_representative` at the
concrete admissible choice `mostFreqFirst` on the Tumor table. -/
theorem c6_per_trial_table_representative_witness :
    per_trial_entity_table_rep mostFreqFirst exTumorTbl (pyStr "T1")
      = [{ label_group := pyStr "DISEASE",
           entity_text := mostFreqFirst [pyStr "Tumor", pyStr "tumor", pyStr "TUMOR"],
           entity_norm := pyStr "tumor", mentions := 3 }] ∧
    mostFreqFirst [pyStr "Tumor", pyStr "tumor", pyStr "TUMOR"]
      ∈ [pyStr "Tumor", pyStr "tumor", pyStr "TUMOR"] ∧
    (∃ row ∈ per_trial_entity_table_rep mostFreqFirst exTumorTbl (pyStr "T1"),
      row.label_group = pyStr "DISEASE" ∧ row.entity_norm = pyStr "tumor") ∧
    ({ label_group := pyStr "DISEASE",
       entity_text := mostFreqFirst [pyStr "Tumor", pyStr "tumor", pyStr "TUMOR"],
       entity_norm := pyStr "tumor", mentions := 3 : PTRow }).mentions
      = (ptGroup (pt_filtered exTumorTbl (pyStr "T1"))
          (pyStr "DISEASE", pyStr "tumor")).length :=
  ⟨c6_per_trial_table_representative.2.2.2.1 mostFreqFirst,
   c6_per_trial_table_representative.2.2.2.2.1 mostFreqFirst repOk_mostFreqFirst,
   c6_per_trial_table_representative.2.2.1 mostFreqFirst exTumorTbl (pyStr "T1")
     (pyStr "DISEASE") (pyStr "tumor")
     ⟨mkRow "T1" "Tumor" "tumor" "DISEASE" 0 5, by decide, by decide, by decide⟩,
   (c6_per_trial_table_representative.2.1 mostFreqFirst repOk_mostFreqFirst
     exTumorTbl (pyStr "T1")
     { label_group := pyStr "DISEASE",
       entity_text := mostFreqFirst [pyStr "Tumor", pyStr "tumor", pyStr "TUMOR"],
       entity_norm := pyStr "tumor", mentions := 3 } (by decide)).1⟩

/-! ### Lemmas: counting events in the co-occurrence builder -/

lemma count_eq_ite_of_nodup {α : Type} [BEq α] [LawfulBEq α] [DecidableEq α]
    {l : List α} (h : l.Nodup) (a : α) : l.count a = if a ∈ l then 1 else 0 := by
  induction l with
  | nil => simp
  | cons b bs ih =>
    rw [List.count_cons, ih (List.nodup_cons.mp h).2]
    by_cases hab : a = b
    · subst hab
      simp [(List.nodup_cons.mp h).1]
    · have hba : ¬b = a := fun he => hab he.symm
      simp [hab, hba, List.mem_cons]

lemma count_pairMap (a x y : List Nat) :
    ∀ rs : List (List Nat),
      (rs.map (fun b => (a, b))).count (x, y) = if a = x then rs.count y else 0 := by
  intro rs
  induction rs with
  | nil => by_cases hax : a = x <;> simp [hax]
  | cons b bs ih =>
    rw [List.map_cons, List.count_cons, ih, List.count_cons]
    by_cases hax : a = x
    · subst hax
      by_cases hby : b = y
      · subst hby; simp
      · simp [hby, Prod.ext_iff]
    · simp [Prod.ext_iff, hax]

lemma count_cross {rs : List (List Nat)} (hrs : rs.Nodup) (x y : List Nat) :
    ∀ ls : List (List Nat), ls.Nodup →
      (ls.flatMap (fun a => rs.map (fun b => (a, b)))).count (x, y)
        = if x ∈ ls ∧ y ∈ rs then 1 else 0 := by
  intro ls
  induction ls with
  | nil => intro _; simp
  | cons a as ih =>
    intro hls
    rw [List.flatMap_cons, List.count_append, count_pairMap,
      ih (List.nodup_cons.mp hls).2]
    have hrc : rs.count y = if y ∈ rs then 1 else 0 := count_eq_ite_of_nodup hrs y
    by_cases hax : a = x
    · rw [if_pos hax, hrc]
      have hxa : x ∉ as := hax ▸ (List.nodup_cons.mp hls).1
      have hxm : x ∈ a :: as := hax ▸ List.mem_cons_self a as
      by_cases hy : y ∈ rs
      · simp [hy, hxa, hxm]
      · simp [hy]
    · rw [if_neg hax]
      have hiff : (x ∈ a :: as ∧ y ∈ rs) ↔ (x ∈ as ∧ y ∈ rs) := by
        constructor
        · rintro ⟨hx, hy⟩
          rcases List.mem_cons.mp hx with rfl | hx
          · exact absurd rfl hax
          · exact ⟨hx, hy⟩
        · rintro ⟨hx, hy⟩
          exact ⟨List.mem_cons_of_mem _ hx, hy⟩
      rw [if_congr hiff rfl rfl]
      simp

lemma nodup_coGroupSet {d : List NMention} {g t : List Nat} : (coGroupSet d g t).Nodup :=
  nodup_dedupF _

lemma count_coRows (tbl : List NMention) (lg rg : List Nat) (tl tr : Nat) (x y : List Nat) :
    (coRows tbl lg rg tl tr).count (x, y)
      = (coTrialIds tbl lg rg tl tr).countP
          (fun t => decide (x ∈ coGroupSet (coRestricted tbl lg rg tl tr) lg t)
            && decide (y ∈ coGroupSet (coRestricted tbl lg rg tl tr) rg t)) := by
  rw [coRows]
  induction coTrialIds tbl lg rg tl tr with
  | nil => simp
  | cons t ts ih =>
    rw [List.flatMap_cons, List.count_append, ih, List.countP_cons]
    by_cases hc : ((coGroupSet (coRestricted tbl lg rg tl tr) lg t).isEmpty
        || (coGroupSet (coRestricted tbl lg rg tl tr) rg t).isEmpty) = true
    · rw [if_pos hc]
      rcases Bool.or_eq_true_iff.mp hc with he | he
      · have hxm : x ∉ coGroupSet (coRestricted tbl lg rg tl tr) lg t := by
          rw [List.isEmpty_iff.mp he]; exact List.not_mem_nil x
        simp [hxm]
      · have hym : y ∉ coGroupSet (coRestricted tbl lg rg tl tr) rg t := by
          rw [List.isEmpty_iff.mp he]; exact List.not_mem_nil y
        simp [hym]
    · rw [if_neg hc, count_cross nodup_coGroupSet x y _ nodup_coGroupSet]
      by_cases hx : x ∈ coGroupSet (coRestricted tbl lg rg tl tr) lg t
      · by_cases hy : y ∈ coGroupSet (coRestricted tbl lg rg tl tr) rg t
        · simp [hx, hy]; omega
        · simp [hx, hy]
      · simp [hx]

lemma pairCount_value_counts (rows : List (List Nat × List Nat)) (x y : List Nat) :
    pairCount (value_counts_pairs rows) x y = rows.count (x, y) := by
  have hmemL : ∀ z, z ∈ value_counts_pairs rows ↔
      z ∈ (dedupF rows).map (fun p => (p.1, p.2, rows.count p)) := fun z =>
    (List.perm_insertionSort leTripleDesc _).mem_iff
  by_cases hmem : (x, y) ∈ rows
  · have hex : ∃ z ∈ value_counts_pairs rows, (decide (z.1 = x ∧ z.2.1 = y)) = true := by
      refine ⟨(x, y, rows.count (x, y)), ?_, by simp⟩
      exact (hmemL _).mpr (List.mem_map.mpr ⟨(x, y), mem_dedupF.mpr hmem, rfl⟩)
    have hsome : ((value_counts_pairs rows).find?
        (fun z => decide (z.1 = x ∧ z.2.1 = y))).isSome := List.find?_isSome.mpr hex
    obtain ⟨z, hz⟩ := Option.isSome_iff_exists.mp hsome
    have hzp : z.1 = x ∧ z.2.1 = y := by simpa using List.find?_some hz
    have hzm : z ∈ value_counts_pairs rows := List.mem_of_find?_eq_some hz
    rcases List.mem_map.mp ((hmemL _).mp hzm) with ⟨p, _hp, hpz⟩
    have hpx : p = (x, y) := by
      have h1 : p.1 = x := by rw [← hzp.1, ← hpz]
      have h2 : p.2 = y := by rw [← hzp.2, ← hpz]
      rw [← h1, ← h2]
    have hcnt : z.2.2 = rows.count (x, y) := by rw [← hpz, hpx]
    rw [pairCount, hz]
    exact hcnt
  · have hnone : (value_counts_pairs rows).find?
        (fun z => decide (z.1 = x ∧ z.2.1 = y)) = none := by
      rw [List.find?_eq_none]
      intro z hzm hzp
      rcases List.mem_map.mp ((hmemL _).mp hzm) with ⟨p, hp, hpz⟩
      have hzp' : z.1 = x ∧ z.2.1 = y := by simpa using hzp
      have hpx : p = (x, y) := by
        have h1 : p.1 = x := by rw [← hzp'.1, ← hpz]
        have h2 : p.2 = y := by rw [← hzp'.2, ← hpz]
        rw [← h1, ← h2]
      exact hmem (hpx ▸ mem_dedupF.mp hp)
    rw [pairCount, hnone]
    exact (List.count_eq_zero.mpr hmem).symm

lemma coGroup_char {tbl : List NMention} {lg rg g l t : List Nat} {tl tr : Nat}
    (hg : g = lg ∨ g = rg) (hl : l ∈ coTopUnion tbl lg rg tl tr) :
    l ∈ coGroupSet (coRestricted tbl lg rg tl tr) g t
      ↔ ∃ m ∈ tbl, m.nct_id = t ∧ m.label_group = g ∧ m.entity_norm = l := by
  rw [mem_coGroupSet]
  constructor
  · rintro ⟨m, hm, h1, h2, h3⟩
    exact ⟨m, (mem_coRestricted.mp hm).1, h1, h2, h3⟩
  · rintro ⟨m, hm, h1, h2, h3⟩
    refine ⟨m, mem_coRestricted.mpr ⟨hm, ?_, ?_⟩, h1, h2, h3⟩
    · rcases hg with rfl | rfl
      · exact Or.inl h2
      · exact Or.inr h2
    · rw [h3]; exact hl

lemma mem_coTrialIds {tbl : List NMention} {lg rg t : List Nat} {tl tr : Nat} :
    t ∈ coTrialIds tbl lg rg tl tr ↔ ∃ m ∈ coRestricted tbl lg rg tl tr, m.nct_id = t := by
  rw [coTrialIds, (List.perm_insertionSort lexNatLe _).mem_iff, mem_dedupF]
  simp [List.mem_map]

lemma nodup_coTrialIds {tbl : List NMention} {lg rg : List Nat} {tl tr : Nat} :
    (coTrialIds tbl lg rg tl tr).Nodup :=
  (List.perm_insertionSort lexNatLe _).nodup_iff.mpr (nodup_dedupF _)

lemma countP_nodup_congr {α : Type} [DecidableEq α] {A B : List α} {p : α → Bool}
    (hA : A.Nodup) (hB : B.Nodup) (h : ∀ t, p t = true → (t ∈ A ↔ t ∈ B)) :
    A.countP p = B.countP p := by
  rw [List.countP_eq_length_filter, List.countP_eq_length_filter,
    ← List.toFinset_card_of_nodup (hA.filter p), ← List.toFinset_card_of_nodup (hB.filter p)]
  congr 1
  ext t
  simp only [List.mem_toFinset, List.mem_filter]
  exact ⟨fun ⟨h1, h2⟩ => ⟨(h t h2).mp h1, h2⟩, fun ⟨h1, h2⟩ => ⟨(h t h2).mpr h1, h2⟩⟩

lemma top_entities_of_nil {g : List Nat} {n : Nat} : _top_entities [] g n = [] := by
  simp [_top_entities, dedupF, dedupFGo]

lemma pairCount_build {tbl : List NMention} {lg rg l r : List Nat} {tl tr : Nat}
    (hl : l ∈ _top_entities (coFiltered tbl lg rg) lg tl)
    (hr : r ∈ _top_entities (coFiltered tbl lg rg) rg tr) :
    pairCount (build_cooccurrence_long tbl lg rg tl tr) l r
      = (coRows tbl lg rg tl tr).count (l, r) := by
  rw [build_cooccurrence_long]
  by_cases h1 : tbl.isEmpty = true
  · rw [List.isEmpty_iff] at h1
    subst h1
    have : coFiltered [] lg rg = [] := rfl
    rw [this, top_entities_of_nil] at hl
    exact absurd hl (List.not_mem_nil l)
  · rw [if_neg h1]
    by_cases h2 : (coFiltered tbl lg rg).isEmpty = true
    · rw [List.isEmpty_iff] at h2
      rw [h2, top_entities_of_nil] at hl
      exact absurd hl (List.not_mem_nil l)
    · rw [if_neg h2]
      have h3 : ((_top_entities (coFiltered tbl lg rg) lg tl).isEmpty
          || (_top_entities (coFiltered tbl lg rg) rg tr).isEmpty) = false := by
        rw [Bool.or_eq_false_iff]
        constructor
        · rw [← Bool.not_eq_true, List.isEmpty_iff]
          exact fun he => absurd hl (he ▸ List.not_mem_nil l)
        · rw [← Bool.not_eq_true, List.isEmpty_iff]
          exact fun he => absurd hr (he ▸ List.not_mem_nil r)
      rw [if_neg (by rw [h3]; exact Bool.false_ne_true)]
      by_cases h4 : (coRestricted tbl lg rg tl tr).isEmpty = true
      · rw [if_pos h4]
        rw [List.isEmpty_iff] at h4
        have hids : coTrialIds tbl lg rg tl tr = [] := by
          rw [coTrialIds, h4]; rfl
        have hrows : coRows tbl lg rg tl tr = [] := by
          rw [coRows, hids]; rfl
        rw [hrows]
        rfl
      · rw [if_neg h4]
        by_cases h5 : (coRows tbl lg rg tl tr).isEmpty = true
        · rw [if_pos h5, List.isEmpty_iff.mp h5]
          rfl
        · rw [if_neg h5]
          exact pairCount_value_counts _ l r

/-- Claim C3: for every mention table, the `n_trials` value reported for a
pair whose left entity made the left top list and whose right entity made the
right top list is exactly the number of distinct document ids in which the
left entity appears under the left category and the right entity under the
right category; and the three-trial example yields `("x","y") = 2` and
`("x","z") = 1`. -/
theorem c3_cooccurrence_trial_counts :
    (∀ (tbl : List NMention) (lg rg : List Nat) (tl tr : Nat) (l r : List Nat),
      l ∈ _top_entities (coFiltered tbl lg rg) lg tl →
      r ∈ _top_entities (coFiltered tbl lg rg) rg tr →
      pairCount (build_cooccurrence_long tbl lg rg tl tr) l r
        = specTrialCount tbl lg rg l r) ∧
    build_cooccurrence_long exCoTbl (pyStr "DISEASE") (pyStr "DRUG") 5 5
      = [(pyStr "x", pyStr "y", 2), (pyStr "x", pyStr "z", 1)] := by
  refine ⟨fun tbl lg rg tl tr l r hl hr => ?_, by decide⟩
  have hl' : l ∈ coTopUnion tbl lg rg tl tr := List.mem_append_left _ hl
  have hr' : r ∈ coTopUnion tbl lg rg tl tr := List.mem_append_right _ hr
  rw [pairCount_build hl hr, count_coRows]
  have hcongr : ∀ t ∈ coTrialIds tbl lg rg tl tr,
      (decide (l ∈ coGroupSet (coRestricted tbl lg rg tl tr) lg t)
        && decide (r ∈ coGroupSet (coRestricted tbl lg rg tl tr) rg t))
      = (tbl.any (fun m => decide (m.nct_id = t ∧ m.label_group = lg ∧ m.entity_norm = l))
        && tbl.any (fun m => decide (m.nct_id = t ∧ m.label_group = rg ∧ m.entity_norm = r))) := by
    intro t _
    have h1 := coGroup_char (t := t) (Or.inl rfl) hl'
    have h2 := coGroup_char (t := t) (Or.inr rfl) hr'
    rw [Bool.eq_iff_iff, Bool.and_eq_true, Bool.and_eq_true, decide_eq_true_eq,
      decide_eq_true_eq]
    simp only [List.any_eq_true, decide_eq_true_eq]
    rw [h1, h2]
  rw [List.countP_congr (fun t ht => by rw [hcongr t ht]), specTrialCount]
  apply countP_nodup_congr nodup_coTrialIds (nodup_dedupF _)
  intro t hp
  rw [Bool.and_eq_true, List.any_eq_true, List.any_eq_true] at hp
  obtain ⟨⟨m, hm, hmp⟩, _⟩ := hp
  rw [decide_eq_true_eq] at hmp
  constructor
  · intro ht
    rcases mem_coTrialIds.mp ht with ⟨m', hm', he⟩
    exact mem_dedupF.mpr (List.mem_map.mpr ⟨m', (mem_coRestricted.mp hm').1, he⟩)
  · intro _
    refine mem_coTrialIds.mpr ⟨m, mem_coRestricted.mpr ⟨hm, Or.inl hmp.2.1, ?_⟩, hmp.1⟩
    rw [hmp.2.2]
    exact hl'

/-- Witness for the hypotheses of `c3_cooccurrence_trial_counts` at the
three-trial example: `"x"` makes the DISEASE top list and `"y"` the DRUG top
list. -/
theorem c3_cooccurrence_trial_counts_witness :
    pairCount (build_cooccurrence_long exCoTbl (pyStr "DISEASE") (pyStr "DRUG") 5 5)
        (pyStr "x") (pyStr "y")
      = specTrialCount exCoTbl (pyStr "DISEASE") (pyStr "DRUG") (pyStr "x") (pyStr "y") :=
  c3_cooccurrence_trial_counts.1 exCoTbl (pyStr "DISEASE") (pyStr "DRUG") 5 5
    (pyStr "x") (pyStr "y") (by decide) (by decide)

/-! ### Lemmas: the normalizer -/

lemma toLowerPy_idem (c : Nat) : toLowerPy (toLowerPy c) = toLowerPy c := by
  unfold toLowerPy
  by_cases h : 65 ≤ c ∧ c ≤ 90
  · simp only [if_pos h]
    rw [if_neg (by omega)]
  · simp only [if_neg h]

lemma word_not_space {c : Nat} (h : pyIsWord c = true) : pyIsSpace c = false := by
  simp only [pyIsWord, Bool.or_eq_true, Bool.and_eq_true, decide_eq_true_eq,
    beq_iff_eq] at h
  simp only [pyIsSpace, Bool.or_eq_false_iff, beq_eq_false_iff_ne, ne_eq]
  omega

lemma mem_collapseWs :
    ∀ (l : List Nat) (b : Bool) (c : Nat), c ∈ collapseWs b l →
      c = 32 ∨ (c ∈ l ∧ pyIsSpace c = false) := by
  intro l
  induction l with
  | nil => intro b c h; simp [collapseWs] at h
  | cons d rest ih =>
    intro b c h
    by_cases hd : pyIsSpace d = true
    · rw [collapseWs, if_pos hd] at h
      by_cases hb : b
      · rw [if_pos hb] at h
        rcases ih true c h with h' | ⟨h1, h2⟩
        · exact Or.inl h'
        · exact Or.inr ⟨List.mem_cons_of_mem _ h1, h2⟩
      · rw [if_neg hb] at h
        rcases List.mem_cons.mp h with rfl | h'
        · exact Or.inl rfl
        · rcases ih true c h' with h'' | ⟨h1, h2⟩
          · exact Or.inl h''
          · exact Or.inr ⟨List.mem_cons_of_mem _ h1, h2⟩
    · rw [collapseWs, if_neg hd] at h
      rcases List.mem_cons.mp h with rfl | h'
      · exact Or.inr ⟨List.mem_cons_self _ _, Bool.not_eq_true _ ▸ hd⟩
      · rcases ih false c h' with h'' | ⟨h1, h2⟩
        · exact Or.inl h''
        · exact Or.inr ⟨List.mem_cons_of_mem _ h1, h2⟩

lemma collapseWs_props :
    ∀ l : List Nat, (collapseWs false l).Chain' noAdjSpace ∧
      (collapseWs true l).Chain' noAdjSpace ∧
      (∀ c, (collapseWs true l).head? = some c → pyIsSpace c = false) := by
  intro l
  induction l with
  | nil => exact ⟨List.chain'_nil, List.chain'_nil, fun c h => by simp [collapseWs] at h⟩
  | cons d rest ih =>
    obtain ⟨ih1, ih2, ih3⟩ := ih
    by_cases hd : pyIsSpace d = true
    · have he1 : collapseWs false (d :: rest) = 32 :: collapseWs true rest := by
        rw [collapseWs, if_pos hd, if_neg (by simp)]
      have he2 : collapseWs true (d :: rest) = collapseWs true rest := by
        rw [collapseWs, if_pos hd, if_pos rfl]
      refine ⟨?_, he2 ▸ ih2, fun c h => ih3 c (he2 ▸ h)⟩
      rw [he1]
      refine List.chain'_cons'.mpr ⟨fun c hc => ?_, ih2⟩
      intro hcon
      have h1 := ih3 c hc
      rw [hcon.2] at h1
      simp at h1
    · have he1 : collapseWs false (d :: rest) = d :: collapseWs false rest := by
        rw [collapseWs, if_neg hd]
      have he2 : collapseWs true (d :: rest) = d :: collapseWs false rest := by
        rw [collapseWs, if_neg hd]
      have hch : (d :: collapseWs false rest).Chain' noAdjSpace := by
        refine List.chain'_cons'.mpr ⟨fun c _ => ?_, ih1⟩
        intro ⟨hsp, _⟩
        exact hd hsp
      exact ⟨he1 ▸ hch, he2 ▸ hch,
        fun c h => by rw [he2] at h; cases h; exact Bool.eq_false_iff.mpr hd⟩

lemma collapseWs_eq_self :
    ∀ l : List Nat, (∀ c ∈ l, pyIsSpace c = true → c = 32) →
      l.Chain' noAdjSpace → collapseWs false l = l := by
  intro l
  induction l with
  | nil => intro _ _; rfl
  | cons d rest ih =>
    intro hsp hch
    by_cases hd : pyIsSpace d = true
    · have hd32 : d = 32 := hsp d (List.mem_cons_self _ _) hd
      rw [collapseWs, if_pos hd, if_neg (by simp)]
      have htail : collapseWs true rest = rest := by
        cases rest with
        | nil => rfl
        | cons e rest' =>
          have he : pyIsSpace e = false := by
            have hR := List.chain'_cons'.mp hch
            have := hR.1 e rfl
            rw [noAdjSpace] at this
            by_cases hee : pyIsSpace e = true
            · exact absurd ⟨hd, hee⟩ this
            · exact Bool.eq_false_iff.mpr hee
          have hrec : collapseWs false (e :: rest') = e :: rest' :=
            ih (fun c hc h => hsp c (List.mem_cons_of_mem _ hc) h)
              (List.chain'_cons'.mp hch).2
          rw [collapseWs, if_neg (by rw [he]; exact Bool.false_ne_true)] at hrec ⊢
          exact hrec
      rw [htail, hd32]
    · rw [collapseWs, if_neg hd]
      rw [ih (fun c hc h => hsp c (List.mem_cons_of_mem _ hc) h)
        (List.chain'_cons'.mp hch).2]

lemma map_id_of_mem {f : Nat → Nat} :
    ∀ l : List Nat, (∀ c ∈ l, f c = c) → l.map f = l := by
  intro l
  induction l with
  | nil => intro _; rfl
  | cons d rest ih =>
    intro h
    rw [List.map_cons, h d (List.mem_cons_self _ _),
      ih (fun c hc => h c (List.mem_cons_of_mem _ hc))]

lemma dropWhile_eq_self_of_head {p : Nat → Bool} {l : List Nat}
    (h : ∀ c, l.head? = some c → p c = false) : l.dropWhile p = l := by
  cases l with
  | nil => rfl
  | cons d rest =>
    rw [List.dropWhile_cons, if_neg (by rw [h d rfl]; exact Bool.false_ne_true)]

lemma dropWhile_head_not {p : Nat → Bool} :
    ∀ (l : List Nat) (c : Nat), (l.dropWhile p).head? = some c → p c = false := by
  intro l
  induction l with
  | nil => intro c h; simp at h
  | cons d rest ih =>
    intro c h
    rw [List.dropWhile_cons] at h
    by_cases hd : p d = true
    · exact ih c (by rwa [if_pos hd] at h)
    · rw [if_neg hd] at h
      cases h
      exact Bool.eq_false_iff.mpr hd

lemma mem_of_mem_dropWhile {p : Nat → Bool} {l : List Nat} {c : Nat}
    (h : c ∈ l.dropWhile p) : c ∈ l :=
  (List.dropWhile_sublist p).mem h

lemma mem_stripNonWord {l : List Nat} {c : Nat} (h : c ∈ stripNonWord l) : c ∈ l := by
  rw [stripNonWord, List.mem_reverse] at h
  have h1 := mem_of_mem_dropWhile h
  rw [List.mem_reverse] at h1
  exact mem_of_mem_dropWhile h1

lemma head_stripNonWord :
    ∀ (l : List Nat) (c : Nat), (stripNonWord l).head? = some c → pyIsWord c = true := by
  intro l c h
  rw [stripNonWord, List.head?_reverse] at h
  have hBne :
      (l.dropWhile (fun c => !pyIsWord c)).reverse.dropWhile (fun c => !pyIsWord c) ≠ [] := by
    intro he
    rw [he] at h
    simp at h
  obtain ⟨t, ht⟩ := List.dropWhile_suffix
    (l := (l.dropWhile (fun c => !pyIsWord c)).reverse) (fun c => !pyIsWord c)
  have hlast : (l.dropWhile (fun c => !pyIsWord c)).reverse.getLast? = some c := by
    rw [← ht, List.getLast?_append_of_ne_nil _ hBne]
    exact h
  rw [List.getLast?_reverse] at hlast
  have hp := dropWhile_head_not (p := fun c => !pyIsWord c) l c hlast
  simpa using hp

lemma last_stripNonWord :
    ∀ (l : List Nat) (c : Nat), (stripNonWord l).getLast? = some c → pyIsWord c = true := by
  intro l c h
  rw [stripNonWord, List.getLast?_reverse] at h
  have := dropWhile_head_not (p := fun c => !pyIsWord c) _ c h
  simpa using this

lemma stripWs_eq_self {t : List Nat}
    (h1 : ∀ c, t.head? = some c → pyIsSpace c = false)
    (h2 : ∀ c, t.getLast? = some c → pyIsSpace c = false) : stripWs t = t := by
  rw [stripWs, dropWhile_eq_self_of_head (l := t) h1,
    dropWhile_eq_self_of_head (l := t.reverse)
      (fun c hc => h2 c (by rwa [List.head?_reverse] at hc)),
    List.reverse_reverse]

lemma stripNonWord_eq_self {t : List Nat}
    (h1 : ∀ c, t.head? = some c → pyIsWord c = true)
    (h2 : ∀ c, t.getLast? = some c → pyIsWord c = true) : stripNonWord t = t := by
  rw [stripNonWord, dropWhile_eq_self_of_head (l := t) (fun c hc => by simp [h1 c hc]),
    dropWhile_eq_self_of_head (l := t.reverse)
      (fun c hc => by rw [List.head?_reverse] at hc; simp [h2 c hc]),
    List.reverse_reverse]

lemma mem_dashFix {l : List Nat} {c : Nat} (h : c ∈ dashFix l) : c = 45 ∨ c ∈ l := by
  rcases List.mem_map.mp h with ⟨d, hd, he⟩
  by_cases hdash : d = 8211 ∨ d = 8212
  · left; rw [← he, if_pos hdash]
  · right; rw [← he, if_neg hdash]; exact hd

lemma nodash_dashFix {l : List Nat} {c : Nat} (h : c ∈ dashFix l) :
    ¬(c = 8211 ∨ c = 8212) := by
  rcases List.mem_map.mp h with ⟨d, _, he⟩
  by_cases hdash : d = 8211 ∨ d = 8212
  · rw [← he, if_pos hdash]
    rintro (h45 | h45) <;> omega
  · rw [← he, if_neg hdash]
    exact hdash

lemma space_dashFix_char (d : Nat) :
    pyIsSpace (if d = 8211 ∨ d = 8212 then 45 else d) = pyIsSpace d := by
  by_cases hdash : d = 8211 ∨ d = 8212
  · rw [if_pos hdash]
    rcases hdash with rfl | rfl <;> rfl
  · rw [if_neg hdash]

lemma chain'_dashFix {l : List Nat} (h : l.Chain' noAdjSpace) :
    (dashFix l).Chain' noAdjSpace := by
  rw [dashFix, List.chain'_map]
  refine h.imp ?_
  intro a b hab hcon
  refine hab ⟨?_, ?_⟩
  · rw [← space_dashFix_char a]; exact hcon.1
  · rw [← space_dashFix_char b]; exact hcon.2

lemma noAdjSpace_symm {a b : Nat} (h : noAdjSpace a b) : noAdjSpace b a :=
  fun hcon => h ⟨hcon.2, hcon.1⟩

lemma chain'_stripNonWord {l : List Nat} (h : l.Chain' noAdjSpace) :
    (stripNonWord l).Chain' noAdjSpace := by
  rw [stripNonWord, List.chain'_reverse]
  have h1 : (l.dropWhile (fun c => !pyIsWord c)).Chain' noAdjSpace :=
    h.suffix (List.dropWhile_suffix _)
  have h2 : (l.dropWhile (fun c => !pyIsWord c)).Chain' (flip noAdjSpace) :=
    h1.imp (fun a b => noAdjSpace_symm)
  have h3 : (l.dropWhile (fun c => !pyIsWord c)).reverse.Chain' noAdjSpace :=
    List.chain'_reverse.mpr h2
  have h4 : ((l.dropWhile (fun c => !pyIsWord c)).reverse.dropWhile
      (fun c => !pyIsWord c)).Chain' noAdjSpace :=
    h3.suffix (List.dropWhile_suffix _)
  exact h4.imp (fun a b => noAdjSpace_symm)

/-- Claim C7: the normalizer is idempotent: applying `_norm_entity` to its
own output returns that output unchanged, for every input string.  (As a Lean
function the embedding is pure by construction, matching the no-side-effects
part of the claim.) -/
theorem c7_normalizer_idempotent :
    ∀ s : List Nat, _norm_entity (_norm_entity s) = _norm_entity s := by
  intro s
  have hmem_u : ∀ c ∈ collapseWs false (List.map toLowerPy (stripWs s)),
      toLowerPy c = c ∧ (pyIsSpace c = true → c = 32) := by
    intro c hc
    rcases mem_collapseWs _ false c hc with rfl | ⟨h1, h2⟩
    · exact ⟨by decide, fun _ => rfl⟩
    · rcases List.mem_map.mp h1 with ⟨d, _, rfl⟩
      exact ⟨toLowerPy_idem d, fun hsp => absurd hsp (by simp [h2])⟩
  have hchain_u := (collapseWs_props (List.map toLowerPy (stripWs s))).1
  have hmem_v : ∀ c ∈ dashFix (collapseWs false (List.map toLowerPy (stripWs s))),
      toLowerPy c = c ∧ (pyIsSpace c = true → c = 32) ∧ ¬(c = 8211 ∨ c = 8212) := by
    intro c hc
    refine ⟨?_, ?_, nodash_dashFix hc⟩
    · rcases mem_dashFix hc with rfl | h
      · decide
      · exact (hmem_u c h).1
    · rcases mem_dashFix hc with rfl | h
      · intro hsp; exact absurd hsp (by decide)
      · exact (hmem_u c h).2
  have hchain_v := chain'_dashFix hchain_u
  have hmem_t : ∀ c ∈ _norm_entity s,
      toLowerPy c = c ∧ (pyIsSpace c = true → c = 32) ∧ ¬(c = 8211 ∨ c = 8212) :=
    fun c hc => hmem_v c (mem_stripNonWord hc)
  have hchain_t : (_norm_entity s).Chain' noAdjSpace := chain'_stripNonWord hchain_v
  have hhead : ∀ c, (_norm_entity s).head? = some c → pyIsWord c = true :=
    fun c hc => head_stripNonWord _ c hc
  have hlast : ∀ c, (_norm_entity s).getLast? = some c → pyIsWord c = true :=
    fun c hc => last_stripNonWord _ c hc
  have hdf : dashFix (_norm_entity s) = _norm_entity s := by
    rw [dashFix]
    exact map_id_of_mem _ (fun c hc => if_neg (hmem_t c hc).2.2)
  conv_lhs => rw [_norm_entity]
  rw [stripWs_eq_self (fun c hc => word_not_space (hhead c hc))
      (fun c hc => word_not_space (hlast c hc)),
    map_id_of_mem _ (fun c hc => (hmem_t c hc).1),
    collapseWs_eq_self _ (fun c hc h => (hmem_t c hc).2.1 h) hchain_t,
    hdf, stripNonWord_eq_self hhead hlast]

/-- Claim C8: once the remaining dash/space difference is unified, the
normalizer sends `"Non–Small Cell"` and `"non  small cell"` to the same key
(their exact outputs are `"non-small cell"` and `"non small cell"`), and it
sends `"  Drug!!"` to `"drug"`, stripping the exclamation marks and the
surrounding whitespace. -/
theorem c8_normalizer_examples :
    (_norm_entity (pyStr "Non–Small Cell")).map (fun c => if c = 45 then 32 else c)
      = (_norm_entity (pyStr "non  small cell")).map (fun c => if c = 45 then 32 else c) ∧
    _norm_entity (pyStr "Non–Small Cell") = pyStr "non-small cell" ∧
    _norm_entity (pyStr "non  small cell") = pyStr "non small cell" ∧
    _norm_entity (pyStr "  Drug!!") = pyStr "drug" := by
  refine ⟨by decide, by decide, by decide, by decide⟩
